import Mathlib

/-! The file-backed memory reader of swift-reflection-dump.

A shallow embedding of `tools/swift-reflection-dump/swift-reflection-dump.cpp`:
the section-relocation policy (`getSectionAddress`, `needToRelocate`), the
`Image` class (constructor, `isAddressValid`, `readBytes`), the
`ObjectMemoryReader` class (`readBytes`, `readString`, `queryDataLayout`,
`getSymbolAddress`) and the actions of `doDumpReflectionSections`.

Conventions of the embedding.

* `uint64_t`, `size_t` and `uintptr_t` values are natural numbers; every
  arithmetic operation of the source is taken modulo `2 ^ 64` (`add64`,
  `sub64`).  The host is taken to be a 64-bit one: `uintptr_t`, `size_t` and
  pointers are 64 bits wide.
* A pointer is the natural number of its address, `nullptr` is `0`, and
  `pointer + integer` is `add64`.
* A `ReadBytesResult` is modelled by the pointer it wraps (its deleter is the
  empty function); it is null exactly when that pointer is `nullptr`.
* `reportError` and `unwrap` terminate the process: functions that can reach
  them return `Option`, with `none` standing for the terminated process.
* The host memory that `readString` walks is a partial function from addresses
  to bytes: the read of an address that is not mapped kills the process
  (`Outcome.killed`).
* The LLVM object-file parser is external: an `ObjectFile` is the record of
  what its accessors return.  The reflection engine and the demangler are
  external too: an `Engine` is the record of the functions the driver calls.
-/

namespace ReflectionDump

/-! ## Machine arithmetic -/

/-- The number of values of a 64-bit unsigned integer. -/
def U64 : Nat := 2 ^ 64

/-- Unsigned 64-bit addition. -/
def add64 (a b : Nat) : Nat := (a + b) % U64

/-- Unsigned 64-bit subtraction. -/
def sub64 (a b : Nat) : Nat := (a + (U64 - b % U64)) % U64

/-- The null pointer. -/
def nullptr : Nat := 0

/-! ## The external object-file interface -/

/-- The dynamic type of an object file, as far as the tool distinguishes it by
`dyn_cast`: `ELFObjectFileBase`, `COFFObjectFile` (with `getImageBase()`), or
anything else (Mach-O). -/
inductive ObjectFormat where
  | elf : ObjectFormat
  | coff (imageBase : Nat) : ObjectFormat
  | other : ObjectFormat
deriving DecidableEq, Repr

/-- The `StringRef` returned by `SectionRef::getContents()`: `data()` and
`size()`. -/
structure Contents where
  data : Nat
  size : Nat
deriving DecidableEq, Repr

/-- What the accessors of an `llvm::object::SectionRef` return.
`name = none` stands for `getName` returning an error code and
`contents = none` for `getContents` returning an error. -/
structure SectionRef where
  object : ObjectFormat
  address : Nat
  size : Nat
  name : Option String
  contents : Option Contents
deriving DecidableEq, Repr

/-- What the accessors of an `llvm::object::ObjectFile` return:
`getData().data()`, `getData().size()` and `sections()`. -/
structure ObjectFile where
  data : Nat
  dataSize : Nat
  sections : List SectionRef
deriving DecidableEq, Repr

/-! ## Section-relocation policy -/

/-- The function `getSectionAddress` of the source: for a COFF object the
image base is subtracted from the reported address. -/
def getSectionAddress (S : SectionRef) : Nat :=
  match S.object with
  | .coff imageBase => sub64 S.address imageBase
  | _ => S.address

/-- The static `ELFSectionsList` of `needToRelocate`. -/
def ELFSectionsList : List String :=
  [".data", ".rodata", "swift5_protocols", "swift5_protocol_conformances",
   "swift5_typeref", "swift5_reflstr", "swift5_assocty", "swift5_replace",
   "swift5_type_metadata", "swift5_fieldmd", "swift5_capture", "swift5_builtin"]

/-- The function `needToRelocate` of the source.  `none` is the call of
`reportError` when the name of an ELF section cannot be read. -/
def needToRelocate (S : SectionRef) : Option Bool :=
  if getSectionAddress S = 0 then some false
  else
    match S.object with
    | .elf =>
      match S.name with
      | none => none
      | some Name => some (decide (Name ∈ ELFSectionsList))
    | _ => some true

/-! ## Image -/

/-- The record `Image::RelocatedRegion`. -/
structure RelocatedRegion where
  Start : Nat
  Size : Nat
  Base : Nat
deriving DecidableEq, Repr

/-- The fields of the class `Image`. -/
structure Image where
  O : ObjectFile
  VASize : Nat
  RelocatedRegions : List RelocatedRegion
deriving DecidableEq, Repr

/-- The body of the loop of the constructor `Image::Image` for the section `S`:
the values of `VASize` and `RelocatedRegions` after it. -/
def Image.addSection (O : ObjectFile) (S : SectionRef) (VASize : Nat)
    (Regions : List RelocatedRegion) : Option (Nat × List RelocatedRegion) :=
  match needToRelocate S with
  | none => none
  | some false => some (VASize, Regions)
  | some true =>
    let SectionAddr := getSectionAddress S
    let VASize1 := if SectionAddr ≠ 0 then max VASize (add64 SectionAddr S.size) else VASize
    match S.contents with
    | none => none
    | some Content =>
      let PhysOffset := sub64 Content.data O.data
      if PhysOffset = SectionAddr then some (VASize1, Regions)
      else
        some (VASize1,
          Regions ++ [{ Start := SectionAddr, Size := Content.size, Base := Content.data }])

/-- The loop of the constructor `Image::Image` over the sections still to be
visited, threading `VASize` and `RelocatedRegions`. -/
def Image.addSections (O : ObjectFile) :
    List SectionRef → Nat → List RelocatedRegion → Option (Nat × List RelocatedRegion)
  | [], VASize, Regions => some (VASize, Regions)
  | S :: rest, VASize, Regions =>
    match Image.addSection O S VASize Regions with
    | none => none
    | some (VASize1, Regions1) => Image.addSections O rest VASize1 Regions1

/-- The constructor `Image::Image`. -/
def Image.new (O : ObjectFile) : Option Image :=
  match Image.addSections O O.sections O.dataSize [] with
  | none => none
  | some (VASize, Regions) => some { O := O, VASize := VASize, RelocatedRegions := Regions }

/-- The method `Image::getStartAddress`. -/
def Image.getStartAddress (I : Image) : Nat := I.O.data

/-- The method `Image::isAddressValid`. -/
def Image.isAddressValid (I : Image) (Addr Size : Nat) : Bool :=
  let start := I.getStartAddress
  decide (start ≤ Addr) && decide (add64 Addr Size ≤ add64 start I.VASize)

/-- The region loop of `Image::readBytes`.  `none` is the early return of a
null result; `some (base, offset)` are the values of the two locals when the
loop is left. -/
def Image.scanRegions (Size : Nat) : List RelocatedRegion → Nat → Nat → Option (Nat × Nat)
  | [], base, offset => some (base, offset)
  | region :: rest, base, offset =>
    if region.Start ≤ offset ∧ offset < add64 region.Start region.Size then
      if add64 offset Size > add64 region.Start region.Size then none
      else some (region.Base, sub64 offset region.Start)
    else Image.scanRegions Size rest base offset

/-- The method `Image::readBytes`; the result is the pointer wrapped by the
returned `ReadBytesResult`. -/
def Image.readBytes (I : Image) (Addr Size : Nat) : Nat :=
  if !I.isAddressValid Addr Size then nullptr
  else
    let addrValue := Addr
    let base := I.O.data
    let offset := sub64 addrValue base
    match Image.scanRegions Size I.RelocatedRegions base offset with
    | none => nullptr
    | some (base1, offset1) => add64 base1 offset1

/-! ## ObjectMemoryReader -/

/-- The fields of the class `ObjectMemoryReader`. -/
structure ObjectMemoryReader where
  Images : List Image
deriving DecidableEq, Repr

/-- The loop of the constructor of `ObjectMemoryReader`: one
`Images.emplace_back(O)` for each object file, in order. -/
def ObjectMemoryReader.emplaceAll : List ObjectFile → List Image → Option (List Image)
  | [], Images => some Images
  | O :: rest, Images =>
    match Image.new O with
    | none => none
    | some I => ObjectMemoryReader.emplaceAll rest (Images ++ [I])

/-- The constructor of `ObjectMemoryReader`. -/
def ObjectMemoryReader.new (ObjectFiles : List ObjectFile) : Option ObjectMemoryReader :=
  match ObjectMemoryReader.emplaceAll ObjectFiles [] with
  | none => none
  | some Images => some { Images := Images }

/-- The method `ObjectMemoryReader::readBytes`: `std::find_if` over `Images`,
then the found image's `readBytes`. -/
def ObjectMemoryReader.readBytes (R : ObjectMemoryReader) (Addr Size : Nat) : Nat :=
  match R.Images.find? (fun I => I.isAddressValid Addr Size) with
  | none => nullptr
  | some I => I.readBytes Addr Size

/-- How a call that walks host memory ends: it returns a value, or the process
is killed by the read of an address that is not mapped, or the bound of the
model on the number of steps is hit. -/
inductive Outcome (α : Type) where
  | returned (a : α) : Outcome α
  | killed : Outcome α
  | outOfFuel : Outcome α
deriving DecidableEq, Repr

/-- The scan of `strlen` in the constructor `StringRef(const char *)`: the
bytes of host memory from address `p` up to the first NUL byte.  Host memory
`mem` is partial: `mem a = none` when the address `a` is not mapped, and
reading it kills the process.  `fuel` bounds the number of bytes looked at. -/
def cstring (mem : Nat → Option Nat) : Nat → Nat → Outcome (List Nat)
  | 0, _ => Outcome.outOfFuel
  | fuel + 1, p =>
    match mem p with
    | none => Outcome.killed
    | some b =>
      if b = 0 then Outcome.returned []
      else
        match cstring mem fuel (p + 1) with
        | Outcome.returned s => Outcome.returned (b :: s)
        | Outcome.killed => Outcome.killed
        | Outcome.outOfFuel => Outcome.outOfFuel

/-- The method `ObjectMemoryReader::readString`: the returned flag and the
value of `Dest` afterwards, when the call returns. -/
def ObjectMemoryReader.readString (R : ObjectMemoryReader) (mem : Nat → Option Nat)
    (fuel : Nat) (Addr : Nat) (Dest : List Nat) : Outcome (Bool × List Nat) :=
  let r := R.readBytes Addr 1
  if r = nullptr then Outcome.returned (false, Dest)
  else
    match cstring mem fuel r with
    | Outcome.returned Str => Outcome.returned (true, Dest ++ Str)
    | Outcome.killed => Outcome.killed
    | Outcome.outOfFuel => Outcome.outOfFuel

/-- The enumeration `DataLayoutQueryType` of the memory-reader interface: the
two values that the `switch` of `queryDataLayout` names, and `other` for any
value that it does not name. -/
inductive DataLayoutQueryType where
  | DLQ_GetPointerSize : DataLayoutQueryType
  | DLQ_GetSizeSize : DataLayoutQueryType
  | other : DataLayoutQueryType
deriving DecidableEq, Repr

/-- The value of `sizeof(void *)` on the 64-bit host. -/
def sizeofPointer : Nat := 8

/-- The value of `sizeof(size_t)` on the 64-bit host. -/
def sizeofSizeT : Nat := 8

/-- The method `ObjectMemoryReader::queryDataLayout`: the returned flag and the
byte written to `outBuffer`, `none` when nothing is written. -/
def ObjectMemoryReader.queryDataLayout (_R : ObjectMemoryReader) (type : DataLayoutQueryType)
    (_inBuffer : Nat) : Bool × Option Nat :=
  match type with
  | .DLQ_GetPointerSize => (true, some sizeofPointer)
  | .DLQ_GetSizeSize => (true, some sizeofSizeT)
  | .other => (false, none)

/-- The method `ObjectMemoryReader::getSymbolAddress`. -/
def ObjectMemoryReader.getSymbolAddress (_R : ObjectMemoryReader) (_name : String) : Nat :=
  nullptr

/-! ## The driver -/

/-- The enumeration `ActionType`. -/
inductive ActionType where
  | DumpReflectionSections : ActionType
  | DumpTypeLowering : ActionType
deriving DecidableEq, Repr

/-- The external collaborators of the driver, as far as it calls them: the
output of `dumpAllSections`, `Demangler::demangleType`, `decodeMangledType`
(`none` for `nullptr`), `TypeRef::dump`, `getTypeInfo` (`none` for `nullptr`)
and `TypeInfo::dump`.  Text is a list of characters. -/
structure Engine (Node TypeRef TypeInfo : Type) where
  dumpAllSections : List Char
  demangleType : List Char → Node
  decodeMangledType : Node → Option TypeRef
  dumpTypeRef : TypeRef → List Char
  getTypeInfo : TypeRef → Option TypeInfo
  dumpTypeInfo : TypeInfo → List Char

/-- The loop of the action `DumpTypeLowering` over the lines that
`std::getline` still returns from standard input, threading the contents of
the output stream `OS`. -/
def typeLoweringLoop {Node TypeRef TypeInfo : Type} (E : Engine Node TypeRef TypeInfo) :
    List (List Char) → List Char → List Char
  | [], OS => OS
  | Line :: rest, OS =>
    if Line.isEmpty then typeLoweringLoop E rest OS
    else if List.isPrefixOf ['/', '/'] Line then typeLoweringLoop E rest OS
    else
      let Demangled := E.demangleType Line
      match E.decodeMangledType Demangled with
      | none => typeLoweringLoop E rest (OS ++ "Invalid typeref: ".toList ++ Line ++ "\n".toList)
      | some TypeRef =>
        let OS1 := OS ++ E.dumpTypeRef TypeRef
        match E.getTypeInfo TypeRef with
        | none => typeLoweringLoop E rest (OS1 ++ "Invalid lowering\n".toList)
        | some TypeInfo => typeLoweringLoop E rest (OS1 ++ E.dumpTypeInfo TypeInfo)

/-- The function `doDumpReflectionSections` once the binaries are opened: the
reader is built from the object files (`none` when that terminates the
process), then the action is run on the lines of standard input; the result is
the contents of `OS` and the returned exit status. -/
def doDumpReflectionSections {Node TypeRef TypeInfo : Type} (E : Engine Node TypeRef TypeInfo)
    (ObjectFiles : List ObjectFile) (Action : ActionType) (stdin : List (List Char))
    (OS : List Char) : Option (List Char × Nat) :=
  match ObjectMemoryReader.new ObjectFiles with
  | none => none
  | some _ =>
    match Action with
    | .DumpReflectionSections => some (OS ++ E.dumpAllSections, 0)
    | .DumpTypeLowering => some (typeLoweringLoop E stdin OS, 0)

/-! ## Vocabulary of the statements -/

/-- The image window `[start, start + VASize)` does not wrap around the 64-bit
address space. -/
def Image.WindowFits (I : Image) : Prop := I.O.data + I.VASize < U64

/-- The read `[a, a + s)` lies inside the image window, as inequalities between
unbounded integers. -/
def Image.inWindow (I : Image) (a s : Nat) : Prop :=
  I.getStartAddress ≤ a ∧ a < I.getStartAddress + I.VASize ∧
    a + s ≤ I.getStartAddress + I.VASize

/-- The extent `[Start, Start + Size)` of a region does not wrap around the
64-bit address space. -/
def RelocatedRegion.Fits (r : RelocatedRegion) : Prop := r.Start + r.Size < U64

/-- The backing bytes `[Base, Base + Size)` of a region are a range of host
memory: the pointer is not null and the range does not wrap. -/
def RelocatedRegion.Backed (r : RelocatedRegion) : Prop := 0 < r.Base ∧ r.Base + r.Size ≤ U64

/-- The image-relative `offset` lies in `[Start, Start + Size)`, as
inequalities between unbounded integers. -/
def RelocatedRegion.contains (r : RelocatedRegion) (offset : Nat) : Prop :=
  r.Start ≤ offset ∧ offset < r.Start + r.Size

instance RelocatedRegion.decidableContains (r : RelocatedRegion) (offset : Nat) :
    Decidable (r.contains offset) := by
  unfold RelocatedRegion.contains
  exact inferInstance

/-- The test of the region loop of `readBytes`, in 64-bit arithmetic. -/
def RelocatedRegion.hits (r : RelocatedRegion) (offset : Nat) : Bool :=
  decide (r.Start ≤ offset) && decide (offset < add64 r.Start r.Size)

/-- The first region, in list order, whose extent contains `offset`. -/
def Image.firstRegion (I : Image) (offset : Nat) : Option RelocatedRegion :=
  I.RelocatedRegions.find? (fun r => decide (r.contains offset))

/-- The read `[a, a + s)` starts in a region, the first in list order that
contains its offset, and ends beyond the upper bound of that region. -/
def Image.straddles (I : Image) (a s : Nat) : Prop :=
  match I.firstRegion (a - I.getStartAddress) with
  | none => False
  | some r => r.Start + r.Size < (a - I.getStartAddress) + s

/-- The `n` bytes of host memory `mem` that a `ReadBytesResult` for the read
`(a, n)` aliases: those at the returned pointer and the `n - 1` following
addresses. -/
def Image.bulkRead (I : Image) (mem : Nat → Nat) (a n : Nat) : List Nat :=
  (List.range n).map (fun i => mem (add64 (I.readBytes a n) i))

/-- The bytes of host memory `mem` obtained from the `n` single-byte reads at
`a`, `a + 1`, ..., `a + n - 1`. -/
def Image.bytewiseRead (I : Image) (mem : Nat → Nat) (a n : Nat) : List Nat :=
  (List.range n).map (fun i => mem (I.readBytes (a + i) 1))

/-- The record that the section `S` of the object `O` contributes to
`RelocatedRegions`, if any: `S` is included and its physical offset differs
from its adjusted virtual address. -/
def Image.regionOf (O : ObjectFile) (S : SectionRef) : Option RelocatedRegion :=
  match needToRelocate S, S.contents with
  | some true, some Content =>
    if sub64 Content.data O.data = getSectionAddress S then none
    else some { Start := getSectionAddress S, Size := Content.size, Base := Content.data }
  | _, _ => none

/-- What one line of standard input contributes to the output of the
type-lowering action: nothing for an empty line or a line beginning with
`//`, the line `Invalid typeref: <line>` when decoding fails, and otherwise the
dump of the structural type followed by the line `Invalid lowering` or by the
dump of the layout. -/
def lineContribution {Node TypeRef TypeInfo : Type} (E : Engine Node TypeRef TypeInfo) :
    List Char → List Char
  | [] => []
  | '/' :: '/' :: _ => []
  | Line =>
    match E.decodeMangledType (E.demangleType Line) with
    | none => "Invalid typeref: ".toList ++ Line ++ "\n".toList
    | some T =>
      match E.getTypeInfo T with
      | none => E.dumpTypeRef T ++ "Invalid lowering\n".toList
      | some TI => E.dumpTypeRef T ++ E.dumpTypeInfo TI

/-- The `size` bytes at the pointer `p` are bytes that the image owns: they lie
inside the file buffer `[data, data + dataSize)` or inside the contents
`[Base, Base + Size)` of one relocated region. -/
def Image.backs (I : Image) (p size : Nat) : Prop :=
  (I.O.data ≤ p ∧ p + size ≤ I.O.data + I.O.dataSize) ∨
    ∃ r ∈ I.RelocatedRegions, r.Base ≤ p ∧ p + size ≤ r.Base + r.Size

/-- No two regions at distinct positions of the list share an offset. -/
def Image.RegionsDisjoint (I : Image) : Prop :=
  I.RelocatedRegions.Pairwise (fun r1 r2 => ∀ x, ¬ (r1.contains x ∧ r2.contains x))

instance Image.decidableWindowFits (I : Image) : Decidable I.WindowFits := by
  unfold Image.WindowFits
  exact inferInstance

instance Image.decidableInWindow (I : Image) (a s : Nat) : Decidable (I.inWindow a s) := by
  unfold Image.inWindow
  exact inferInstance

instance RelocatedRegion.decidableFits (r : RelocatedRegion) : Decidable r.Fits := by
  unfold RelocatedRegion.Fits
  exact inferInstance

instance RelocatedRegion.decidableBacked (r : RelocatedRegion) : Decidable r.Backed := by
  unfold RelocatedRegion.Backed
  exact inferInstance

instance Image.decidableStraddles (I : Image) (a s : Nat) : Decidable (I.straddles a s) := by
  unfold Image.straddles
  cases I.firstRegion (a - I.getStartAddress) with
  | none => exact inferInstance
  | some r => exact inferInstance

/-! ## Concrete inputs -/

/-- A Mach-O-like object of 256 bytes mapped at `0x1000`, with one section at
virtual address 8 whose 8 bytes of contents sit at file offset `0x40`. -/
def objOneRegion : ObjectFile :=
  { data := 0x1000, dataSize := 0x100,
    sections := [{ object := .other, address := 8, size := 8, name := some "__swift5_typeref",
                   contents := some { data := 0x1040, size := 8 } }] }

/-- The image that `Image.new` builds from `objOneRegion`. -/
def imgOneRegion : Image :=
  { O := objOneRegion, VASize := 0x100,
    RelocatedRegions := [{ Start := 8, Size := 8, Base := 0x1040 }] }

/-- A Mach-O-like object of 256 bytes mapped at `0x1000` with two sections
whose virtual ranges overlap: `[8, 40)` with contents at file offset `0x40`
and `[8, 16)` with contents at file offset `0x80`. -/
def objOverlap : ObjectFile :=
  { data := 0x1000, dataSize := 0x100,
    sections := [{ object := .other, address := 8, size := 32, name := some "__first",
                   contents := some { data := 0x1040, size := 32 } },
                 { object := .other, address := 8, size := 8, name := some "__second",
                   contents := some { data := 0x1080, size := 8 } }] }

/-- The image that `Image.new` builds from `objOverlap`. -/
def imgOverlap : Image :=
  { O := objOverlap, VASize := 0x100,
    RelocatedRegions := [{ Start := 8, Size := 32, Base := 0x1040 },
                         { Start := 8, Size := 8, Base := 0x1080 }] }

/-- The section of `objShadowed` whose contents sit at the file offset equal to
its virtual address `0x10`. -/
def secInPlace : SectionRef :=
  { object := .other, address := 0x10, size := 0x10, name := some "__in_place",
    contents := some { data := 0x1010, size := 0x10 } }

/-- A Mach-O-like object of 256 bytes mapped at `0x1000` with two sections at
the same virtual range `[0x10, 0x20)`: `secInPlace`, and one whose contents sit
at file offset `0x40`. -/
def objShadowed : ObjectFile :=
  { data := 0x1000, dataSize := 0x100,
    sections := [secInPlace,
                 { object := .other, address := 0x10, size := 0x10, name := some "__moved",
                   contents := some { data := 0x1040, size := 0x10 } }] }

/-- The image that `Image.new` builds from `objShadowed`. -/
def imgShadowed : Image :=
  { O := objShadowed, VASize := 0x100,
    RelocatedRegions := [{ Start := 0x10, Size := 0x10, Base := 0x1040 }] }

/-- A Mach-O-like object of 256 bytes mapped at `0x1000` with the single
section `secInPlace`. -/
def objInPlace : ObjectFile := { data := 0x1000, dataSize := 0x100, sections := [secInPlace] }

/-- The image that `Image.new` builds from `objInPlace`. -/
def imgInPlace : Image := { O := objInPlace, VASize := 0x100, RelocatedRegions := [] }

/-- A host memory whose byte at `0x1040` is 1 and whose other bytes are 0. -/
def memMarked : Nat → Nat := fun p => if p = 0x1040 then 1 else 0

/-- A Mach-O-like object of 256 bytes mapped at `0x1000` with two sections, at
the virtual ranges `[0x200, 0x210)` and `[0x280, 0x290)` beyond the end of the
file. -/
def objWide : ObjectFile :=
  { data := 0x1000, dataSize := 0x100,
    sections := [{ object := .other, address := 0x200, size := 0x10, name := some "__a",
                   contents := some { data := 0x1040, size := 0x10 } },
                 { object := .other, address := 0x280, size := 0x10, name := some "__b",
                   contents := some { data := 0x1050, size := 0x10 } }] }

/-- The image that `Image.new` builds from `objWide`: its window is
`[0x1000, 0x1290)`. -/
def imgWide : Image :=
  { O := objWide, VASize := 0x290,
    RelocatedRegions := [{ Start := 0x200, Size := 0x10, Base := 0x1040 },
                         { Start := 0x280, Size := 0x10, Base := 0x1050 }] }

/-- An object of 256 bytes mapped at `0x1200`, right after the bytes of
`objWide` and inside the window of `imgWide`, without sections. -/
def objNext : ObjectFile := { data := 0x1200, dataSize := 0x100, sections := [] }

/-- The image that `Image.new` builds from `objNext`. -/
def imgNext : Image := { O := objNext, VASize := 0x100, RelocatedRegions := [] }

/-- The reader that `ObjectMemoryReader.new` builds from `objWide` and
`objNext`. -/
def readerWideNext : ObjectMemoryReader := { Images := [imgWide, imgNext] }

/-- The reader over the single image `imgOneRegion`. -/
def readerOneRegion : ObjectMemoryReader := { Images := [imgOneRegion] }

/-- A host memory in which the 256 bytes at `[0x1000, 0x1100)` are mapped: the C
string `"Hi"` at `0x1040`, zero bytes elsewhere. -/
def memHi : Nat → Option Nat := fun p =>
  if 0x1000 ≤ p ∧ p < 0x1100 then
    some (if p = 0x1040 then 72 else if p = 0x1041 then 105 else 0)
  else none

/-- A host memory in which the 256 bytes at `[0x1000, 0x1100)` are mapped and
all hold the byte 65, the addresses `[0x1100, 0x2000)` are not mapped, and the
256 bytes at `[0x2000, 0x2100)` are mapped and hold zero bytes. -/
def memGap : Nat → Option Nat := fun p =>
  if 0x1000 ≤ p ∧ p < 0x1100 then some 65
  else if 0x2000 ≤ p ∧ p < 0x2100 then some 0
  else none

/-- The section `.rdata` of a PE image with image base `0x400000`: it reports
the address `image_base + 0x4000` and its 16 bytes of contents sit at file
offset `0x400` of a file mapped at `0x10000`. -/
def secRdata : SectionRef :=
  { object := .coff 0x400000, address := 0x404000, size := 0x10, name := some ".rdata",
    contents := some { data := 0x10400, size := 0x10 } }

/-- A PE image of 4096 bytes mapped at `0x10000` with the single section
`secRdata`. -/
def objPE : ObjectFile := { data := 0x10000, dataSize := 0x1000, sections := [secRdata] }

/-- The image that `Image.new` builds from `objPE`. -/
def imgPE : Image :=
  { O := objPE, VASize := 0x4010,
    RelocatedRegions := [{ Start := 0x4000, Size := 0x10, Base := 0x10400 }] }

/-- An ELF section with the given name and reported address. -/
def elfSection (Name : String) (address : Nat) : SectionRef :=
  { object := .elf, address := address, size := 0x10, name := some Name,
    contents := some { data := 0x1040, size := 0x10 } }

/-- The section `.text` of `objELFRel`: virtual address 0, contents at file
offset `0x40`. -/
def secText : SectionRef :=
  { object := .elf, address := 0, size := 0x10, name := some ".text",
    contents := some { data := 0x1040, size := 0x10 } }

/-- The section `swift5_fieldmd` of `objELFRel`: virtual address 0, contents at
file offset `0x80`. -/
def secFieldmd : SectionRef :=
  { object := .elf, address := 0, size := 0x10, name := some "swift5_fieldmd",
    contents := some { data := 0x1080, size := 0x10 } }

/-- A relocatable ELF object of 256 bytes mapped at `0x1000` with the sections
`secText` and `secFieldmd`, both at virtual address 0. -/
def objELFRel : ObjectFile :=
  { data := 0x1000, dataSize := 0x100, sections := [secText, secFieldmd] }

/-- The image that `Image.new` builds from `objELFRel`. -/
def imgELFRel : Image := { O := objELFRel, VASize := 0x100, RelocatedRegions := [] }

/-- An engine for which `$sSiD` decodes to the type 0, whose layout is 8,
`$sNope` decodes to the type 1, which has no layout, and nothing else
decodes. -/
def engineSample : Engine (List Char) Nat Nat :=
  { dumpAllSections := "FIELDS:\n".toList
    demangleType := fun Line => Line
    decodeMangledType := fun Node =>
      if Node = "$sSiD".toList then some 0
      else if Node = "$sNope".toList then some 1
      else none
    dumpTypeRef := fun T => if T = 0 then "(struct Swift.Int)\n".toList else "(opaque)\n".toList
    getTypeInfo := fun T => if T = 0 then some 8 else none
    dumpTypeInfo := fun _ => "(struct size=8)\n".toList }

/-- Five lines of standard input: a valid type, an empty line, a comment, a
line that does not decode and a type that does not lower. -/
def stdinSample : List (List Char) :=
  ["$sSiD".toList, [], "// comment".toList, "not a mangled name".toList, "$sNope".toList]

/-- An ELF object of 256 bytes mapped at `0x1000` whose section `.data` of 16
bytes reports the address `2 ^ 64 - 8`. -/
def objHighSection : ObjectFile :=
  { data := 0x1000, dataSize := 0x100,
    sections := [{ object := .elf, address := 2 ^ 64 - 8, size := 16, name := some ".data",
                   contents := some { data := 0x1040, size := 16 } }] }

/-- The image that `Image.new` builds from `objHighSection`. -/
def imgHighSection : Image :=
  { O := objHighSection, VASize := 0x100,
    RelocatedRegions := [{ Start := 2 ^ 64 - 8, Size := 16, Base := 0x1040 }] }

/-- An object of 4096 bytes mapped at `0x7f0000000000`, without sections. -/
def objPlain : ObjectFile := { data := 0x7f0000000000, dataSize := 0x1000, sections := [] }

/-- The image that `Image.new` builds from `objPlain`. -/
def imgPlain : Image := { O := objPlain, VASize := 0x1000, RelocatedRegions := [] }

/-! ## Arithmetic lemmas -/

theorem add64_of_lt {a b : Nat} (h : a + b < U64) : add64 a b = a + b := by
  unfold add64; exact Nat.mod_eq_of_lt h

theorem add64_le (a b : Nat) : add64 a b ≤ a + b := by
  unfold add64; exact Nat.mod_le _ _

theorem sub64_of_le {a b : Nat} (hb : b ≤ a) (ha : a < U64) : sub64 a b = a - b := by
  unfold sub64
  have hb' : b % U64 = b := Nat.mod_eq_of_lt (lt_of_le_of_lt hb ha)
  rw [hb']
  have : a + (U64 - b) = (a - b) + U64 := by omega
  rw [this, Nat.add_mod_right]
  exact Nat.mod_eq_of_lt (by omega)

/-! ## The region scan -/

theorem RelocatedRegion.contains_of_hits {r : RelocatedRegion} {offset : Nat}
    (h : r.hits offset = true) : r.contains offset := by
  unfold RelocatedRegion.hits at h
  simp only [Bool.and_eq_true, decide_eq_true_eq] at h
  exact ⟨h.1, lt_of_lt_of_le h.2 (add64_le _ _)⟩

theorem RelocatedRegion.hits_iff_contains {r : RelocatedRegion} (hf : r.Fits) (offset : Nat) :
    r.hits offset = true ↔ r.contains offset := by
  unfold RelocatedRegion.hits RelocatedRegion.contains
  unfold RelocatedRegion.Fits at hf
  rw [add64_of_lt hf]
  simp

/-- The scan of `readBytes` stops at the first region whose test succeeds. -/
theorem Image.scanRegions_eq (Size : Nat) (l : List RelocatedRegion) (base offset : Nat) :
    Image.scanRegions Size l base offset =
      match l.find? (fun r => r.hits offset) with
      | none => some (base, offset)
      | some r =>
        if add64 offset Size > add64 r.Start r.Size then none
        else some (r.Base, sub64 offset r.Start) := by
  induction l with
  | nil => simp [Image.scanRegions]
  | cons q rest ih =>
    by_cases hq : q.hits offset = true
    · have hq' : q.Start ≤ offset ∧ offset < add64 q.Start q.Size := by
        simpa [RelocatedRegion.hits] using hq
      simp [Image.scanRegions, List.find?, hq, hq']
    · have hq' : ¬ (q.Start ≤ offset ∧ offset < add64 q.Start q.Size) := by
        simpa [RelocatedRegion.hits] using hq
      have hq2 : q.hits offset = false := by simpa using hq
      simp only [Image.scanRegions, List.find?, hq2, if_neg hq']
      exact ih

theorem find_hits_eq_find_contains (l : List RelocatedRegion) (offset : Nat)
    (hf : ∀ r ∈ l, r.Fits) :
    l.find? (fun r => r.hits offset) = l.find? (fun r => decide (r.contains offset)) := by
  induction l with
  | nil => rfl
  | cons q rest ih =>
    have hq := RelocatedRegion.hits_iff_contains (hf q (List.mem_cons_self _ _)) offset
    have ih' := ih (fun r hr => hf r (List.mem_cons_of_mem _ hr))
    by_cases hc : q.contains offset
    · have : q.hits offset = true := hq.2 hc
      simp [List.find?, this, hc]
    · have : q.hits offset = false := by
        cases h : q.hits offset with
        | false => rfl
        | true => exact absurd (hq.1 h) hc
      simp [List.find?, this, hc, ih']

/-- What `readBytes` returns for a read that `isAddressValid` accepts. -/
theorem Image.readBytes_of_valid (I : Image) (Addr Size : Nat)
    (hv : I.isAddressValid Addr Size = true) :
    I.readBytes Addr Size =
      match I.RelocatedRegions.find? (fun r => r.hits (sub64 Addr I.O.data)) with
      | none => add64 I.O.data (sub64 Addr I.O.data)
      | some r =>
        if add64 (sub64 Addr I.O.data) Size > add64 r.Start r.Size then nullptr
        else add64 r.Base (sub64 (sub64 Addr I.O.data) r.Start) := by
  unfold Image.readBytes
  simp only [hv, Bool.not_true, Bool.false_eq_true, if_false]
  rw [Image.scanRegions_eq]
  cases I.RelocatedRegions.find? (fun r => r.hits (sub64 Addr I.O.data)) with
  | none => simp
  | some r =>
    by_cases h : add64 (sub64 Addr I.O.data) Size > add64 r.Start r.Size
    · simp [h]
    · simp [h]

theorem Image.readBytes_of_invalid (I : Image) (Addr Size : Nat)
    (hv : I.isAddressValid Addr Size = false) : I.readBytes Addr Size = nullptr := by
  unfold Image.readBytes
  simp [hv]

/-- Without 64-bit wrap-around `isAddressValid` is the containment of the read
in the window. -/
theorem Image.isAddressValid_iff (I : Image) (Addr Size : Nat) (hw : I.WindowFits)
    (hno : Addr + Size < U64) :
    I.isAddressValid Addr Size = true ↔
      I.O.data ≤ Addr ∧ Addr + Size ≤ I.O.data + I.VASize := by
  unfold Image.WindowFits at hw
  unfold Image.isAddressValid Image.getStartAddress
  simp only [add64_of_lt hno, add64_of_lt hw]
  simp

/-! ## Reads inside and outside the window -/

/-- C1, counterexample: the read of 8 bytes at `0x100c` lies inside the window
of the image built from `objOneRegion`, it starts in the region `[8, 16)` and
ends beyond it, and `readBytes` returns null. -/
theorem readBytes_window_counterexample :
    Image.new objOneRegion = some imgOneRegion ∧ 0 < 8 ∧ imgOneRegion.inWindow 0x100c 8 ∧
      imgOneRegion.readBytes 0x100c 8 = nullptr := by
  decide

/-- C1, amended: for an image with a non-null file buffer, a window and regions
that do not wrap around the address space and regions backed by host memory,
and for a read `(a, s)` with `s > 0` whose end `a + s` does not overflow,
`readBytes` returns a non-null pointer exactly when the read lies inside the
window and does not straddle the upper bound of the region it starts in. -/
theorem readBytes_window (I : Image) (a s : Nat) (hs : 0 < s) (hbase : 0 < I.O.data)
    (hwin : I.WindowFits) (hreg : ∀ r ∈ I.RelocatedRegions, r.Fits ∧ r.Backed)
    (hno : a + s < U64) :
    I.readBytes a s ≠ nullptr ↔ I.inWindow a s ∧ ¬ I.straddles a s := by
  have hiff := Image.isAddressValid_iff I a s hwin hno
  by_cases hv : I.isAddressValid a s = true
  · have hv' := hiff.1 hv
    have hin : I.inWindow a s := by
      unfold Image.inWindow Image.getStartAddress
      omega
    have hoff : sub64 a I.O.data = a - I.O.data := sub64_of_le hv'.1 (by omega)
    rw [Image.readBytes_of_valid I a s hv, hoff,
      find_hits_eq_find_contains _ _ (fun r hr => (hreg r hr).1)]
    unfold Image.straddles Image.firstRegion Image.getStartAddress
    cases hfind : I.RelocatedRegions.find? (fun r => decide (r.contains (a - I.O.data))) with
    | none =>
      simp only [hin, not_false_eq_true, and_self, iff_true]
      rw [add64_of_lt (by omega)]
      unfold nullptr
      omega
    | some r =>
      have hmem := List.mem_of_find?_eq_some hfind
      have hc : r.contains (a - I.O.data) := by simpa using List.find?_some hfind
      obtain ⟨hfit, hback⟩ := hreg r hmem
      unfold RelocatedRegion.Fits at hfit
      unfold RelocatedRegion.Backed at hback
      unfold RelocatedRegion.contains at hc
      simp only [hin, true_and, not_lt]
      rw [add64_of_lt hfit, add64_of_lt (by omega : a - I.O.data + s < U64)]
      by_cases hst : a - I.O.data + s > r.Start + r.Size
      · simp only [hst, if_true]
        constructor
        · intro h; exact absurd rfl h
        · intro h; omega
      · simp only [hst, if_false]
        rw [sub64_of_le hc.1 (by omega), add64_of_lt (by omega)]
        unfold nullptr
        constructor
        · intro _; omega
        · intro _; omega
  · have hv2 : I.isAddressValid a s = false := by simpa using hv
    rw [Image.readBytes_of_invalid I a s hv2]
    simp only [ne_eq, not_true_eq_false, false_iff, not_and, not_not]
    intro hin
    exfalso
    apply hv
    apply hiff.2
    unfold Image.inWindow Image.getStartAddress at hin
    omega

/-- C1, witness: the read of the 8 bytes of the region of `imgOneRegion`. -/
theorem readBytes_window_witness :
    0 < 8 ∧ 0 < imgOneRegion.O.data ∧ imgOneRegion.WindowFits ∧
      (∀ r ∈ imgOneRegion.RelocatedRegions, r.Fits ∧ r.Backed) ∧ 0x1008 + 8 < U64 ∧
      (imgOneRegion.readBytes 0x1008 8 ≠ nullptr ↔
        imgOneRegion.inWindow 0x1008 8 ∧ ¬ imgOneRegion.straddles 0x1008 8) :=
  ⟨by decide, by decide, by decide, by decide, by decide,
    readBytes_window imgOneRegion 0x1008 8 (by decide) (by decide) (by decide) (by decide)
      (by decide)⟩

/-- C2, the code at the failing input: the image built from `objPlain` has the
window `[0x7f0000000000, 0x7f0000001000)`; for the address `2 ^ 64 - 4` and the
size 8 the sum `addr + size` overflows 64 bits and exceeds the end of the
window, yet `isAddressValid` returns true and `readBytes` hands out the
pointer `2 ^ 64 - 4`. -/
theorem isAddressValid_accepts_overflow :
    Image.new objPlain = some imgPlain ∧
      U64 ≤ (2 ^ 64 - 4) + 8 ∧
      ¬ ((2 ^ 64 - 4) + 8 ≤ imgPlain.O.data + imgPlain.VASize) ∧
      imgPlain.isAddressValid (2 ^ 64 - 4) 8 = true ∧
      imgPlain.readBytes (2 ^ 64 - 4) 8 = 2 ^ 64 - 4 := by
  decide

/-! ## Reads served by a relocated region -/

theorem find_hits_of_disjoint (l : List RelocatedRegion)
    (hd : l.Pairwise (fun r1 r2 => ∀ x, ¬ (r1.contains x ∧ r2.contains x)))
    (r : RelocatedRegion) (hr : r ∈ l) (hf : r.Fits) (offset : Nat) (hc : r.contains offset) :
    l.find? (fun q => q.hits offset) = some r := by
  induction l with
  | nil => cases hr
  | cons q rest ih =>
    rw [List.pairwise_cons] at hd
    have hrh : r.hits offset = true := (RelocatedRegion.hits_iff_contains hf offset).2 hc
    by_cases hq : q.hits offset = true
    · have hqc := RelocatedRegion.contains_of_hits hq
      rcases List.mem_cons.1 hr with h | h
      · subst h
        simp [List.find?, hq]
      · exact absurd ⟨hqc, hc⟩ (hd.1 r h offset)
    · have hq2 : q.hits offset = false := by simpa using hq
      rcases List.mem_cons.1 hr with h | h
      · subst h
        exact absurd hrh hq
      · simp only [List.find?, hq2]
        exact ih hd.2 h

theorem find_hits_of_find_contains (l : List RelocatedRegion) (offset : Nat)
    (r : RelocatedRegion) (hf : r.Fits)
    (h : l.find? (fun q => decide (q.contains offset)) = some r) :
    l.find? (fun q => q.hits offset) = some r := by
  induction l with
  | nil => simp at h
  | cons q rest ih =>
    by_cases hc : q.contains offset
    · have hqr : q = r := by simpa [List.find?, hc] using h
      subst hqr
      have : q.hits offset = true := (RelocatedRegion.hits_iff_contains hf offset).2 hc
      simp [List.find?, this]
    · have hq2 : q.hits offset = false := by
        cases hh : q.hits offset with
        | false => rfl
        | true => exact absurd (RelocatedRegion.contains_of_hits hh) hc
      have h' : rest.find? (fun q => decide (q.contains offset)) = some r := by
        simpa [List.find?, hc] using h
      simp only [List.find?, hq2]
      exact ih h'

theorem Image.le_of_isAddressValid {I : Image} {Addr Size : Nat}
    (hv : I.isAddressValid Addr Size = true) : I.O.data ≤ Addr := by
  unfold Image.isAddressValid Image.getStartAddress at hv
  simp only [Bool.and_eq_true, decide_eq_true_eq] at hv
  exact hv.1

/-- C3, counterexample: the read of 0 bytes at `0x1010`, the upper bound of the
region `[8, 16)` of `imgOneRegion`, satisfies `r.Start ≤ offset` and
`offset + size ≤ r.Start + r.Size` and is accepted by `isAddressValid`, but
`readBytes` returns the file-buffer pointer `0x1010`, not
`r.Base + (offset - r.Start) = 0x1048`. -/
theorem readBytes_in_region_counterexample :
    Image.new objOneRegion = some imgOneRegion ∧ imgOneRegion.RegionsDisjoint ∧
      ({ Start := 8, Size := 8, Base := 0x1040 } : RelocatedRegion) ∈
        imgOneRegion.RelocatedRegions ∧
      imgOneRegion.isAddressValid 0x1010 0 = true ∧
      8 ≤ 0x1010 - imgOneRegion.getStartAddress ∧
      (0x1010 - imgOneRegion.getStartAddress) + 0 ≤ 8 + 8 ∧
      imgOneRegion.readBytes 0x1010 0 = 0x1010 ∧
      imgOneRegion.readBytes 0x1010 0 ≠
        add64 0x1040 ((0x1010 - imgOneRegion.getStartAddress) - 8) := by
  refine ⟨by decide, ?_, by decide, by decide, by decide, by decide, by decide, by decide⟩
  unfold Image.RegionsDisjoint
  exact List.pairwise_singleton _ _

/-- C3, amended: in an image whose regions are pairwise non-overlapping, for a
region `r` of the image that does not wrap around the address space and a read
accepted by `isAddressValid` at a 64-bit address whose offset satisfies
`r.Start ≤ offset < r.Start + r.Size` and `offset + size ≤ r.Start + r.Size`,
`readBytes` returns `r.Base + (offset - r.Start)`. -/
theorem readBytes_in_region (I : Image) (r : RelocatedRegion) (Addr Size : Nat)
    (hA : Addr < U64) (hdis : I.RegionsDisjoint) (hr : r ∈ I.RelocatedRegions) (hfit : r.Fits)
    (hv : I.isAddressValid Addr Size = true)
    (hlo : r.Start ≤ Addr - I.getStartAddress)
    (hin : Addr - I.getStartAddress < r.Start + r.Size)
    (hhi : (Addr - I.getStartAddress) + Size ≤ r.Start + r.Size) :
    I.readBytes Addr Size = add64 r.Base ((Addr - I.getStartAddress) - r.Start) := by
  have hle := Image.le_of_isAddressValid hv
  unfold Image.getStartAddress at hlo hin hhi ⊢
  have hoff : sub64 Addr I.O.data = Addr - I.O.data := sub64_of_le hle hA
  have hfind := find_hits_of_disjoint I.RelocatedRegions hdis r hr hfit (Addr - I.O.data)
    ⟨hlo, hin⟩
  rw [Image.readBytes_of_valid I Addr Size hv, hoff, hfind]
  unfold RelocatedRegion.Fits at hfit
  have h1 : add64 r.Start r.Size = r.Start + r.Size := add64_of_lt hfit
  have h2 : add64 (Addr - I.O.data) Size = Addr - I.O.data + Size := add64_of_lt (by omega)
  have h3 : sub64 (Addr - I.O.data) r.Start = Addr - I.O.data - r.Start :=
    sub64_of_le hlo (by omega)
  simp only [h1, h2, h3]
  rw [if_neg (by omega)]

/-- C3, witness: the read of the last 4 bytes of the region of `imgOneRegion`. -/
theorem readBytes_in_region_witness :
    imgOneRegion.RegionsDisjoint ∧
      imgOneRegion.isAddressValid 0x100c 4 = true ∧
      8 ≤ 0x100c - imgOneRegion.getStartAddress ∧
      0x100c - imgOneRegion.getStartAddress < 8 + 8 ∧
      (0x100c - imgOneRegion.getStartAddress) + 4 ≤ 8 + 8 ∧
      imgOneRegion.readBytes 0x100c 4 =
        add64 0x1040 ((0x100c - imgOneRegion.getStartAddress) - 8) :=
  ⟨List.pairwise_singleton _ _, by decide, by decide, by decide, by decide,
    readBytes_in_region imgOneRegion { Start := 8, Size := 8, Base := 0x1040 } 0x100c 4
      (by decide) (List.pairwise_singleton _ _) (by decide) (by decide) (by decide) (by decide)
      (by decide) (by decide)⟩

/-- C4, counterexample: in the image built from `objOverlap` the read of 8 bytes
at offset 12 is accepted by `isAddressValid`, lies inside the region `[8, 16)`
and ends beyond it, but the scan stops at the earlier region `[8, 40)` and
`readBytes` returns the non-null pointer `0x1044`. -/
theorem readBytes_straddle_counterexample :
    Image.new objOverlap = some imgOverlap ∧
      ({ Start := 8, Size := 8, Base := 0x1080 } : RelocatedRegion) ∈
        imgOverlap.RelocatedRegions ∧
      imgOverlap.isAddressValid 0x100c 8 = true ∧
      8 ≤ 0x100c - imgOverlap.getStartAddress ∧
      0x100c - imgOverlap.getStartAddress < 8 + 8 ∧
      (0x100c - imgOverlap.getStartAddress) + 8 > 8 + 8 ∧
      imgOverlap.readBytes 0x100c 8 = 0x1044 ∧ imgOverlap.readBytes 0x100c 8 ≠ nullptr := by
  decide

/-- C4, amended: for a read accepted by `isAddressValid` whose end `addr + size`
does not overflow 64 bits, if `r` is the first region in list order that
contains the offset of the read and `offset + size > r.Start + r.Size`, then
`readBytes` returns null. -/
theorem readBytes_straddle_null (I : Image) (r : RelocatedRegion) (Addr Size : Nat)
    (hv : I.isAddressValid Addr Size = true) (hno : Addr + Size < U64)
    (hfirst : I.firstRegion (Addr - I.getStartAddress) = some r)
    (hover : r.Start + r.Size < (Addr - I.getStartAddress) + Size) :
    I.readBytes Addr Size = nullptr := by
  have hle := Image.le_of_isAddressValid hv
  unfold Image.firstRegion at hfirst
  unfold Image.getStartAddress at hfirst hover
  have hoff : sub64 Addr I.O.data = Addr - I.O.data := sub64_of_le hle (by omega)
  have hfit : r.Fits := by
    unfold RelocatedRegion.Fits
    omega
  have hfind := find_hits_of_find_contains I.RelocatedRegions _ r hfit hfirst
  rw [Image.readBytes_of_valid I Addr Size hv, hoff, hfind]
  unfold RelocatedRegion.Fits at hfit
  have h1 : add64 r.Start r.Size = r.Start + r.Size := add64_of_lt hfit
  have h2 : add64 (Addr - I.O.data) Size = Addr - I.O.data + Size := add64_of_lt (by omega)
  simp only [h1, h2]
  rw [if_pos (by omega)]

/-- C4, witness: the read of 8 bytes at offset 12 of `imgOneRegion` crosses the
upper bound of the region `[8, 16)`. -/
theorem readBytes_straddle_null_witness :
    imgOneRegion.isAddressValid 0x100c 8 = true ∧ 0x100c + 8 < U64 ∧
      imgOneRegion.firstRegion (0x100c - imgOneRegion.getStartAddress) =
        some { Start := 8, Size := 8, Base := 0x1040 } ∧
      8 + 8 < (0x100c - imgOneRegion.getStartAddress) + 8 ∧
      imgOneRegion.readBytes 0x100c 8 = nullptr :=
  ⟨by decide, by decide, by decide, by decide,
    readBytes_straddle_null imgOneRegion { Start := 8, Size := 8, Base := 0x1040 } 0x100c 8
      (by decide) (by decide) (by decide) (by decide)⟩

/-! ## The constructor -/

theorem Image.new_eq_some {O : ObjectFile} {I : Image} (h : Image.new O = some I) :
    I.O = O ∧
      Image.addSections O O.sections O.dataSize [] = some (I.VASize, I.RelocatedRegions) := by
  unfold Image.new at h
  cases hadd : Image.addSections O O.sections O.dataSize [] with
  | none => simp [hadd] at h
  | some p =>
    obtain ⟨V, Rs⟩ := p
    simp only [hadd, Option.some.injEq] at h
    subst h
    exact ⟨rfl, rfl⟩

theorem needToRelocate_address_ne_zero {S : SectionRef} (h : needToRelocate S = some true) :
    getSectionAddress S ≠ 0 := by
  intro h0
  unfold needToRelocate at h
  simp [h0] at h

/-- The loop body for an included section whose contents can be read. -/
theorem Image.addSection_included (O : ObjectFile) (S : SectionRef) (c : Contents)
    (V : Nat) (Rs : List RelocatedRegion)
    (hneed : needToRelocate S = some true) (hc : S.contents = some c) :
    Image.addSection O S V Rs =
      some (max V (add64 (getSectionAddress S) S.size),
        if sub64 c.data O.data = getSectionAddress S then Rs
        else Rs ++ [{ Start := getSectionAddress S, Size := c.size, Base := c.data }]) := by
  have hne := needToRelocate_address_ne_zero hneed
  unfold Image.addSection
  simp only [hneed, hc, hne, ne_eq, not_false_eq_true, if_true]
  by_cases hp : sub64 c.data O.data = getSectionAddress S
  · simp [hp]
  · simp [hp]

theorem Image.addSection_VASize_le {O : ObjectFile} {S : SectionRef} {V V1 : Nat}
    {Rs Rs1 : List RelocatedRegion} (h : Image.addSection O S V Rs = some (V1, Rs1)) :
    V ≤ V1 ∧ (needToRelocate S = some true → add64 (getSectionAddress S) S.size ≤ V1) := by
  cases hneed : needToRelocate S with
  | none => simp [Image.addSection, hneed] at h
  | some b =>
    cases b with
    | false =>
      simp only [Image.addSection, hneed, Option.some.injEq, Prod.mk.injEq] at h
      refine ⟨by omega, ?_⟩
      intro hh
      simp at hh
    | true =>
      cases hc : S.contents with
      | none => simp [Image.addSection, hneed, hc] at h
      | some c =>
        rw [Image.addSection_included O S c V Rs hneed hc] at h
        simp only [Option.some.injEq, Prod.mk.injEq] at h
        refine ⟨?_, fun _ => ?_⟩
        · rw [← h.1]; exact le_max_left _ _
        · rw [← h.1]; exact le_max_right _ _

theorem Image.addSections_VASize_le (O : ObjectFile) (l : List SectionRef) :
    ∀ (V V1 : Nat) (Rs Rs1 : List RelocatedRegion),
      Image.addSections O l V Rs = some (V1, Rs1) →
      V ≤ V1 ∧ ∀ S ∈ l, needToRelocate S = some true →
        add64 (getSectionAddress S) S.size ≤ V1 := by
  induction l with
  | nil =>
    intro V V1 Rs Rs1 h
    simp only [Image.addSections, Option.some.injEq, Prod.mk.injEq] at h
    refine ⟨by omega, ?_⟩
    intro S hS
    cases hS
  | cons T rest ih =>
    intro V V1 Rs Rs1 h
    cases hstep : Image.addSection O T V Rs with
    | none => simp [Image.addSections, hstep] at h
    | some p =>
      obtain ⟨V2, Rs2⟩ := p
      simp only [Image.addSections, hstep] at h
      obtain ⟨hle, hrest⟩ := ih V2 V1 Rs2 Rs1 h
      obtain ⟨hle2, hT⟩ := Image.addSection_VASize_le hstep
      refine ⟨le_trans hle2 hle, ?_⟩
      intro S hS hneed
      rcases List.mem_cons.1 hS with hST | hSr
      · subst hST
        exact le_trans (hT hneed) hle
      · exact hrest S hSr hneed

theorem find_hits_none_of_not_contains (l : List RelocatedRegion) (offset : Nat)
    (h : ∀ q ∈ l, ¬ q.contains offset) : l.find? (fun q => q.hits offset) = none := by
  rw [List.find?_eq_none]
  intro q hq hh
  exact h q hq (RelocatedRegion.contains_of_hits hh)

/-! ## Reads served by the file buffer -/

/-- C5, counterexample: in the image built from `objShadowed` the section
`secInPlace` is included and its file offset equals its virtual address, the
read of 4 bytes at `0x1010` lies within its virtual range, but `readBytes`
returns `0x1040`, the contents of the other section, not
`file-buffer + (addr - file-base) = 0x1010`. -/
theorem readBytes_in_place_counterexample :
    Image.new objShadowed = some imgShadowed ∧ secInPlace ∈ objShadowed.sections ∧
      needToRelocate secInPlace = some true ∧
      secInPlace.contents = some { data := 0x1010, size := 0x10 } ∧
      sub64 0x1010 objShadowed.data = getSectionAddress secInPlace ∧
      objShadowed.data + getSectionAddress secInPlace ≤ 0x1010 ∧
      0x1010 + 4 ≤ objShadowed.data + getSectionAddress secInPlace + secInPlace.size ∧
      imgShadowed.readBytes 0x1010 4 = 0x1040 ∧
      imgShadowed.readBytes 0x1010 4 ≠ add64 objShadowed.data (0x1010 - objShadowed.data) := by
  decide

/-- C5, amended: for an included section `S` of an object file whose file offset
equals its adjusted virtual address, the loop body of the constructor leaves
`RelocatedRegions` unchanged; and in the image built from the object, if the
window and the virtual range of `S` do not wrap around the address space,
every read within the virtual range of `S` whose offset no relocated region
contains returns `file-buffer + (addr - file-base)`. -/
theorem readBytes_in_place (O : ObjectFile) (I : Image) (S : SectionRef) (c : Contents)
    (Addr Size : Nat)
    (hI : Image.new O = some I) (hS : S ∈ O.sections)
    (hneed : needToRelocate S = some true) (hc : S.contents = some c)
    (hphys : sub64 c.data O.data = getSectionAddress S)
    (hwin : I.WindowFits) (hfit : getSectionAddress S + S.size < U64)
    (hlo : O.data + getSectionAddress S ≤ Addr)
    (hhi : Addr + Size ≤ O.data + getSectionAddress S + S.size)
    (hfree : ∀ q ∈ I.RelocatedRegions, ¬ q.contains (Addr - O.data)) :
    (∀ V Rs, ∃ V1, Image.addSection O S V Rs = some (V1, Rs)) ∧
      I.readBytes Addr Size = add64 O.data (Addr - O.data) := by
  constructor
  · intro V Rs
    rw [Image.addSection_included O S c V Rs hneed hc]
    simp [hphys]
  · obtain ⟨hO, hadd⟩ := Image.new_eq_some hI
    have hVA := (Image.addSections_VASize_le O O.sections _ _ _ _ hadd).2 S hS hneed
    rw [add64_of_lt hfit] at hVA
    have hwin' : O.data + I.VASize < U64 := by
      have := hwin
      unfold Image.WindowFits at this
      rwa [hO] at this
    have hv : I.isAddressValid Addr Size = true := by
      rw [Image.isAddressValid_iff I Addr Size hwin (by omega), hO]
      omega
    have hoff : sub64 Addr O.data = Addr - O.data := sub64_of_le (by omega) (by omega)
    rw [Image.readBytes_of_valid I Addr Size hv, hO, hoff,
      find_hits_none_of_not_contains _ _ hfree]

/-- C5, witness: the read of the 16 bytes of `secInPlace` in the image built from
`objInPlace`. -/
theorem readBytes_in_place_witness :
    Image.new objInPlace = some imgInPlace ∧
      (∀ V Rs, ∃ V1, Image.addSection objInPlace secInPlace V Rs = some (V1, Rs)) ∧
      imgInPlace.readBytes 0x1010 0x10 = add64 objInPlace.data (0x1010 - objInPlace.data) :=
  ⟨by decide,
    readBytes_in_place objInPlace imgInPlace secInPlace { data := 0x1010, size := 0x10 }
      0x1010 0x10 (by decide) (by decide) (by decide) (by decide) (by decide) (by decide)
      (by decide) (by decide) (by decide) (by decide)⟩

/-! ## Round trip -/

/-- What `readBytes` returns for a read inside a window that does not wrap, when
no region wraps. -/
theorem Image.readBytes_eq_firstRegion (I : Image) (a s : Nat) (hwin : I.WindowFits)
    (hfits : ∀ r ∈ I.RelocatedRegions, r.Fits)
    (hlo : I.O.data ≤ a) (hhi : a + s ≤ I.O.data + I.VASize) :
    I.readBytes a s =
      match I.firstRegion (a - I.O.data) with
      | none => a
      | some r =>
        if r.Start + r.Size < a - I.O.data + s then nullptr
        else add64 r.Base (a - I.O.data - r.Start) := by
  have hw := hwin
  unfold Image.WindowFits at hw
  have hv : I.isAddressValid a s = true :=
    (Image.isAddressValid_iff I a s hwin (by omega)).2 ⟨hlo, hhi⟩
  have hoff : sub64 a I.O.data = a - I.O.data := sub64_of_le hlo (by omega)
  rw [Image.readBytes_of_valid I a s hv, hoff, find_hits_eq_find_contains _ _ hfits]
  unfold Image.firstRegion
  cases hfind : I.RelocatedRegions.find? (fun r => decide (r.contains (a - I.O.data))) with
  | none =>
    simp only
    rw [add64_of_lt (by omega)]
    omega
  | some r =>
    have hmem := List.mem_of_find?_eq_some hfind
    have hc : r.contains (a - I.O.data) := by simpa using List.find?_some hfind
    have hfit := hfits r hmem
    unfold RelocatedRegion.Fits at hfit
    unfold RelocatedRegion.contains at hc
    simp only
    rw [add64_of_lt hfit, add64_of_lt (by omega : a - I.O.data + s < U64),
      sub64_of_le hc.1 (by omega)]

theorem add64_add64 (b x i : Nat) : add64 (add64 b x) i = add64 b (x + i) := by
  unfold add64
  rw [Nat.mod_add_mod, Nat.add_assoc]

/-- C6, counterexample: the range `[0x1004, 0x100c)` is fully contained in the
window of `imgOneRegion`; the 8-byte read returns the file-buffer pointer
`0x1004`, while the single-byte read at `0x1008` is served by the region and
returns `0x1040`, not `0x1008`; in the memory `memMarked` the two byte
sequences differ. -/
theorem round_trip_counterexample :
    Image.new objOneRegion = some imgOneRegion ∧
      imgOneRegion.getStartAddress ≤ 0x1004 ∧
      0x1004 + 8 ≤ imgOneRegion.getStartAddress + imgOneRegion.VASize ∧
      imgOneRegion.readBytes 0x1004 8 = 0x1004 ∧
      imgOneRegion.readBytes (0x1004 + 4) 1 = 0x1040 ∧
      imgOneRegion.readBytes (0x1004 + 4) 1 ≠ add64 (imgOneRegion.readBytes 0x1004 8) 4 ∧
      imgOneRegion.bulkRead memMarked 0x1004 8 = [0, 0, 0, 0, 0, 0, 0, 0] ∧
      imgOneRegion.bytewiseRead memMarked 0x1004 8 = [0, 0, 0, 0, 1, 0, 0, 0] := by
  decide

/-- C6, amended: for an image with a non-null file buffer, a window and regions
that do not wrap and regions backed by host memory, and a range `[a, a + n)`
fully contained in the window such that every offset of the range has the same
first containing region as `a` (or none, like `a`) and the `n`-byte read does
not cross the upper bound of that region: every single-byte read
`readBytes(a + i, 1)` is non-null and equals `readBytes(a, n) + i`, and the
bytes read one by one are the bytes of the `n`-byte read. -/
theorem round_trip (I : Image) (mem : Nat → Nat) (a n : Nat) (hbase : 0 < I.O.data)
    (hwin : I.WindowFits) (hreg : ∀ r ∈ I.RelocatedRegions, r.Fits ∧ r.Backed)
    (hlo : I.getStartAddress ≤ a) (hhi : a + n ≤ I.getStartAddress + I.VASize)
    (hsame : ∀ i < n, I.firstRegion (a + i - I.getStartAddress) =
      I.firstRegion (a - I.getStartAddress))
    (hend : ¬ I.straddles a n) :
    (∀ i < n, I.readBytes (a + i) 1 ≠ nullptr ∧
        I.readBytes (a + i) 1 = add64 (I.readBytes a n) i) ∧
      I.bytewiseRead mem a n = I.bulkRead mem a n := by
  have hw := hwin
  unfold Image.WindowFits at hw
  unfold Image.getStartAddress at hlo hhi hsame
  unfold Image.straddles Image.getStartAddress at hend
  have hfits : ∀ r ∈ I.RelocatedRegions, r.Fits := fun r hr => (hreg r hr).1
  have key : ∀ i < n, I.readBytes (a + i) 1 ≠ nullptr ∧
      I.readBytes (a + i) 1 = add64 (I.readBytes a n) i := by
    intro i hi
    rw [Image.readBytes_eq_firstRegion I (a + i) 1 hwin hfits (by omega) (by omega),
      Image.readBytes_eq_firstRegion I a n hwin hfits hlo hhi, hsame i hi]
    cases hfind : I.firstRegion (a - I.O.data) with
    | none =>
      simp only
      rw [add64_of_lt (by omega : a + i < U64)]
      have hpos : 0 < a + i := by omega
      exact ⟨Nat.ne_of_gt hpos, rfl⟩
    | some r =>
      rw [hfind] at hend
      simp only [not_lt] at hend
      have hfind' := hfind
      unfold Image.firstRegion at hfind'
      have hmem := List.mem_of_find?_eq_some hfind'
      have hc : r.contains (a - I.O.data) := by simpa using List.find?_some hfind'
      obtain ⟨hfit, hback⟩ := hreg r hmem
      unfold RelocatedRegion.Fits at hfit
      unfold RelocatedRegion.Backed at hback
      unfold RelocatedRegion.contains at hc
      simp only
      rw [if_neg (by omega), if_neg (by omega), add64_add64]
      have hidx : a + i - I.O.data - r.Start = a - I.O.data - r.Start + i := by omega
      rw [hidx]
      refine ⟨?_, rfl⟩
      rw [add64_of_lt (by omega)]
      unfold nullptr
      omega
  refine ⟨key, ?_⟩
  unfold Image.bytewiseRead Image.bulkRead
  apply List.map_congr_left
  intro i hi
  rw [(key i (List.mem_range.1 hi)).2]

/-- C6, witness: the range `[0x1008, 0x1010)` of `imgOneRegion`, the whole of its
region, in the memory `memMarked`. -/
theorem round_trip_witness :
    (∀ i < 8, imgOneRegion.readBytes (0x1008 + i) 1 ≠ nullptr ∧
        imgOneRegion.readBytes (0x1008 + i) 1 = add64 (imgOneRegion.readBytes 0x1008 8) i) ∧
      imgOneRegion.bytewiseRead memMarked 0x1008 8 = imgOneRegion.bulkRead memMarked 0x1008 8 :=
  round_trip imgOneRegion memMarked 0x1008 8 (by decide) (by decide) (by decide) (by decide)
    (by decide) (by decide) (by decide)

/-! ## ObjectMemoryReader -/

theorem ObjectMemoryReader.emplaceAll_eq (files : List ObjectFile) :
    ∀ (acc Images : List Image), ObjectMemoryReader.emplaceAll files acc = some Images →
      ∃ new, Images = acc ++ new ∧
        List.Forall₂ (fun O I => Image.new O = some I) files new := by
  induction files with
  | nil =>
    intro acc Images h
    simp only [ObjectMemoryReader.emplaceAll, Option.some.injEq] at h
    exact ⟨[], by simp [h], List.Forall₂.nil⟩
  | cons O rest ih =>
    intro acc Images h
    cases hO : Image.new O with
    | none => simp [ObjectMemoryReader.emplaceAll, hO] at h
    | some I =>
      simp only [ObjectMemoryReader.emplaceAll, hO] at h
      obtain ⟨new, hnew, hall⟩ := ih (acc ++ [I]) Images h
      exact ⟨I :: new, by simp [hnew], List.Forall₂.cons hO hall⟩

theorem find_first_valid (pre post : List Image) (I : Image) (p : Image → Bool)
    (hpre : ∀ J ∈ pre, p J = false) (hI : p I = true) :
    (pre ++ I :: post).find? p = some I := by
  induction pre with
  | nil => simp [List.find?, hI]
  | cons J rest ih =>
    have hJ := hpre J (List.mem_cons_self _ _)
    simp only [List.cons_append, List.find?, hJ]
    exact ih (fun K hK => hpre K (List.mem_cons_of_mem _ hK))

/-- C7: the images of a reader built from a list of object files are the images
of those files, in the order of the list; `readBytes` of the reader returns
null when no image accepts `(addr, size)`; otherwise it returns
`Image.readBytes(addr, size)` of the first image of the list that accepts
`(addr, size)`, whatever that read returns and whatever images follow. -/
theorem reader_readBytes_first (R : ObjectMemoryReader) (Addr Size : Nat) :
    (∀ files, ObjectMemoryReader.new files = some R →
        List.Forall₂ (fun O I => Image.new O = some I) files R.Images) ∧
      ((∀ I ∈ R.Images, I.isAddressValid Addr Size = false) →
        R.readBytes Addr Size = nullptr) ∧
      (∀ pre I post, R.Images = pre ++ I :: post →
        (∀ J ∈ pre, J.isAddressValid Addr Size = false) →
        I.isAddressValid Addr Size = true →
        R.readBytes Addr Size = I.readBytes Addr Size) := by
  refine ⟨?_, ?_, ?_⟩
  · intro files h
    unfold ObjectMemoryReader.new at h
    cases hall : ObjectMemoryReader.emplaceAll files [] with
    | none => simp [hall] at h
    | some Images =>
      simp only [hall, Option.some.injEq] at h
      obtain ⟨new, hnew, hfor⟩ := ObjectMemoryReader.emplaceAll_eq files [] Images hall
      rw [← h]
      simpa [hnew] using hfor
  · intro hnone
    unfold ObjectMemoryReader.readBytes
    have : R.Images.find? (fun I => I.isAddressValid Addr Size) = none := by
      rw [List.find?_eq_none]
      intro I hI
      simp [hnone I hI]
    rw [this]
  · intro pre I post hsplit hpre hI
    unfold ObjectMemoryReader.readBytes
    rw [hsplit, find_first_valid pre post I _ hpre hI]


/-- C7, witness: in the reader built from `objWide` and `objNext` the read of 8
bytes at `0x120c` is accepted by both images; the first one returns null (the
read crosses the upper bound of its region `[0x200, 0x210)`), the second one
would return `0x120c`, and the reader returns the null of the first.  No image
accepts the read of 8 bytes at address 0. -/
theorem reader_readBytes_first_witness :
    ObjectMemoryReader.new [objWide, objNext] = some readerWideNext ∧
      List.Forall₂ (fun O I => Image.new O = some I) [objWide, objNext] readerWideNext.Images ∧
      imgWide.isAddressValid 0x120c 8 = true ∧ imgNext.isAddressValid 0x120c 8 = true ∧
      imgNext.readBytes 0x120c 8 = 0x120c ∧ imgWide.readBytes 0x120c 8 = nullptr ∧
      readerWideNext.readBytes 0x120c 8 = imgWide.readBytes 0x120c 8 ∧
      readerWideNext.readBytes 0 8 = nullptr :=
  ⟨by decide,
    (reader_readBytes_first readerWideNext 0x120c 8).1 [objWide, objNext] (by decide),
    by decide, by decide, by decide, by decide,
    (reader_readBytes_first readerWideNext 0x120c 8).2.2 [] imgWide [imgNext] rfl
      (by decide) (by decide),
    (reader_readBytes_first readerWideNext 0 8).2.1 (by decide)⟩

theorem cstring_returned (mem : Nat → Option Nat) (s : List Nat) :
    ∀ (p fuel : Nat), (∀ j b, s[j]? = some b → mem (p + j) = some b ∧ b ≠ 0) →
      mem (p + s.length) = some 0 → s.length < fuel →
      cstring mem fuel p = Outcome.returned s := by
  induction s with
  | nil =>
    intro p fuel _ h0 hf
    obtain ⟨f, rfl⟩ : ∃ f, fuel = f + 1 := ⟨fuel - 1, by simp at hf; omega⟩
    have h0' : mem p = some 0 := by simpa using h0
    simp [cstring, h0']
  | cons b t ih =>
    intro p fuel hs h0 hf
    obtain ⟨f, rfl⟩ : ∃ f, fuel = f + 1 := ⟨fuel - 1, by simp at hf; omega⟩
    have hb := hs 0 b (by simp)
    have hp : mem p = some b := by simpa using hb.1
    have h0' : mem (p + 1 + t.length) = some 0 := by
      have : p + 1 + t.length = p + (b :: t).length := by simp; omega
      rw [this]; exact h0
    have hs' : ∀ j c, t[j]? = some c → mem (p + 1 + j) = some c ∧ c ≠ 0 := by
      intro j c hj
      have : p + 1 + j = p + (j + 1) := by omega
      rw [this]
      exact hs (j + 1) c (by simpa using hj)
    have hrec := ih (p + 1) f hs' h0' (by simp at hf; omega)
    simp only [cstring, hp, if_neg hb.2, hrec]

theorem cstring_killed (mem : Nat → Option Nat) (s : List Nat) :
    ∀ (p fuel : Nat), (∀ j b, s[j]? = some b → mem (p + j) = some b ∧ b ≠ 0) →
      mem (p + s.length) = none →
      cstring mem fuel p = if s.length < fuel then Outcome.killed else Outcome.outOfFuel := by
  induction s with
  | nil =>
    intro p fuel _ h0
    have h0' : mem p = none := by simpa using h0
    cases fuel with
    | zero => simp [cstring]
    | succ f => simp [cstring, h0']
  | cons b t ih =>
    intro p fuel hs h0
    cases fuel with
    | zero => simp [cstring]
    | succ f =>
      have hb := hs 0 b (by simp)
      have hp : mem p = some b := by simpa using hb.1
      have h0' : mem (p + 1 + t.length) = none := by
        have : p + 1 + t.length = p + (b :: t).length := by simp; omega
        rw [this]; exact h0
      have hs' : ∀ j c, t[j]? = some c → mem (p + 1 + j) = some c ∧ c ≠ 0 := by
        intro j c hj
        have : p + 1 + j = p + (j + 1) := by omega
        rw [this]
        exact hs (j + 1) c (by simpa using hj)
      have hrec := ih (p + 1) f hs' h0'
      simp only [cstring, hp, if_neg hb.2, hrec, List.length_cons]
      by_cases hlt : t.length < f
      · simp [hlt]
      · simp [hlt]

/-- C8, counterexample: in the memory `memGap` the reader over `imgOneRegion`
translates the address `0x1008` to the non-null pointer `0x1040`; the 192
bytes from there to the end of the mapping are not NUL, the first NUL byte
after them is at `0x2000`, and the walk of `readString` is killed at the
unmapped address `0x1100`: `readString` does not return true, whatever the
fuel. -/
theorem readString_counterexample :
    readerOneRegion.readBytes 0x1008 1 = 0x1040 ∧
      readerOneRegion.readBytes 0x1008 1 ≠ nullptr ∧
      memGap 0x10ff = some 65 ∧ memGap 0x1100 = none ∧ memGap 0x2000 = some 0 ∧
      readerOneRegion.readString memGap 1000 0x1008 [1] = Outcome.killed ∧
      (∀ fuel Dest1, readerOneRegion.readString memGap fuel 0x1008 [1]
        ≠ Outcome.returned (true, Dest1)) := by
  have hp : readerOneRegion.readBytes 0x1008 1 = 0x1040 := by decide
  have hs : ∀ j b, (List.replicate 192 65)[j]? = some b →
      memGap (0x1040 + j) = some b ∧ b ≠ 0 := by
    intro j b hj
    rw [List.getElem?_replicate] at hj
    by_cases hlt : j < 192
    · simp only [hlt, if_true, Option.some.injEq] at hj
      subst hj
      refine ⟨?_, by decide⟩
      unfold memGap
      rw [if_pos (by omega)]
    · simp [hlt] at hj
  have hk : ∀ fuel, cstring memGap fuel 0x1040 =
      if 192 < fuel then Outcome.killed else Outcome.outOfFuel := by
    intro fuel
    have hlen : (List.replicate 192 (65 : Nat)).length = 192 := List.length_replicate _ _
    have := cstring_killed memGap (List.replicate 192 65) 0x1040 fuel hs
      (by rw [hlen]; decide)
    rw [hlen] at this
    exact this
  refine ⟨hp, by decide, by decide, by decide, by decide, ?_, ?_⟩
  · unfold ObjectMemoryReader.readString
    simp only [hp, hk 1000]
    decide
  · intro fuel Dest1
    unfold ObjectMemoryReader.readString
    simp only [hp, hk fuel]
    by_cases hlt : 192 < fuel
    · simp [hlt, nullptr]
    · simp [hlt, nullptr]

/-- C8, amended: `readString` returns false exactly when `readBytes(addr, 1)` of
the reader is null, and then `Dest` is unchanged.  When it is a non-null
pointer `p`, the bytes `s` at `p`, ..., `p + |s| - 1` are mapped and not NUL
and the byte at `p + |s|` is a mapped NUL, `readString` returns true (for
every fuel above `|s|`) and `Dest` afterwards is its previous content followed
by `s`; when instead the address `p + |s|` is not mapped, the process is
killed and `readString` does not return. -/
theorem readString_spec (R : ObjectMemoryReader) (mem : Nat → Option Nat) (Addr : Nat)
    (Dest : List Nat) :
    (R.readBytes Addr 1 = nullptr →
        ∀ fuel, R.readString mem fuel Addr Dest = Outcome.returned (false, Dest)) ∧
      (∀ fuel Dest1, R.readString mem fuel Addr Dest = Outcome.returned (false, Dest1) →
        R.readBytes Addr 1 = nullptr ∧ Dest1 = Dest) ∧
      (R.readBytes Addr 1 ≠ nullptr →
        ∀ s : List Nat,
          (∀ j b, s[j]? = some b → mem (R.readBytes Addr 1 + j) = some b ∧ b ≠ 0) →
          (mem (R.readBytes Addr 1 + s.length) = some 0 →
            ∀ fuel, s.length < fuel →
              R.readString mem fuel Addr Dest = Outcome.returned (true, Dest ++ s)) ∧
          (mem (R.readBytes Addr 1 + s.length) = none →
            ∀ fuel, s.length < fuel →
              R.readString mem fuel Addr Dest = Outcome.killed)) := by
  refine ⟨?_, ?_, ?_⟩
  · intro hnull fuel
    unfold ObjectMemoryReader.readString
    simp [hnull]
  · intro fuel Dest1 h
    unfold ObjectMemoryReader.readString at h
    by_cases hnull : R.readBytes Addr 1 = nullptr
    · simp only [hnull, if_true, Outcome.returned.injEq, Prod.mk.injEq, true_and] at h
      exact ⟨hnull, h.symm⟩
    · simp only [if_neg hnull] at h
      cases hc : cstring mem fuel (R.readBytes Addr 1) with
      | returned Str => simp [hc] at h
      | killed => simp [hc] at h
      | outOfFuel => simp [hc] at h
  · intro hnn s hs
    constructor
    · intro h0 fuel hf
      unfold ObjectMemoryReader.readString
      simp only [if_neg hnn, cstring_returned mem s _ fuel hs h0 hf]
    · intro hk fuel hf
      unfold ObjectMemoryReader.readString
      simp only [if_neg hnn, cstring_killed mem s _ fuel hs hk, if_pos hf]

/-- C8, witness: with the C string `"Hi"` at `0x1040`, the backing pointer of the
region of `imgOneRegion`, `readString` at `0x1008` appends the bytes 72 and 105;
at address 0, which no image accepts, it returns false. -/
theorem readString_spec_witness :
    readerOneRegion.readBytes 0x1008 1 = 0x1040 ∧
      readerOneRegion.readString memHi 3 0x1008 [1] = Outcome.returned (true, [1] ++ [72, 105]) ∧
      readerOneRegion.readString memHi 3 0 [1] = Outcome.returned (false, [1]) :=
  ⟨by decide,
    ((readString_spec readerOneRegion memHi 0x1008 [1]).2.2 (by decide) [72, 105]
      (by
        intro j b hj
        have hp : readerOneRegion.readBytes 0x1008 1 = 0x1040 := by decide
        rw [hp]
        rcases j with _ | _ | j
        · simp only [List.getElem?_cons_zero, Option.some.injEq] at hj
          subst hj
          decide
        · simp only [List.getElem?_cons_succ, List.getElem?_cons_zero, Option.some.injEq] at hj
          subst hj
          decide
        · simp at hj)).1 (by decide) 3 (by decide),
    (readString_spec readerOneRegion memHi 0 [1]).1 (by decide) 3⟩

/-! ## Section-relocation policy -/

/-- C9: `needToRelocate(S)` is false when the adjusted virtual address of `S` is
zero; otherwise, for an ELF object whose section name can be read, it is true
exactly when the name is one of the twelve listed names, compared as exact
strings (when the name cannot be read the process is terminated); and for
every other container format it is true. -/
theorem needToRelocate_policy (S : SectionRef) :
    (getSectionAddress S = 0 → needToRelocate S = some false) ∧
      (getSectionAddress S ≠ 0 → S.object = ObjectFormat.elf →
        ∀ Name, S.name = some Name →
          needToRelocate S = some (decide
            (Name = ".data" ∨ Name = ".rodata" ∨ Name = "swift5_protocols" ∨
              Name = "swift5_protocol_conformances" ∨ Name = "swift5_typeref" ∨
              Name = "swift5_reflstr" ∨ Name = "swift5_assocty" ∨ Name = "swift5_replace" ∨
              Name = "swift5_type_metadata" ∨ Name = "swift5_fieldmd" ∨
              Name = "swift5_capture" ∨ Name = "swift5_builtin"))) ∧
      (getSectionAddress S ≠ 0 → S.object = ObjectFormat.elf → S.name = none →
        needToRelocate S = none) ∧
      (getSectionAddress S ≠ 0 → S.object ≠ ObjectFormat.elf →
        needToRelocate S = some true) := by
  refine ⟨?_, ?_, ?_, ?_⟩
  · intro h0
    simp [needToRelocate, h0]
  · intro hne helf Name hname
    simp only [needToRelocate, if_neg hne, helf, hname, ELFSectionsList]
    congr 1
    simp only [List.mem_cons, List.mem_singleton, List.not_mem_nil, or_false]
  · intro hne helf hname
    simp only [needToRelocate, if_neg hne, helf, hname]
  · intro hne hnelf
    unfold needToRelocate
    rw [if_neg hne]
    cases hobj : S.object with
    | elf => exact absurd hobj hnelf
    | coff b => rfl
    | other => rfl

/-- C9, witness: an ELF section named `swift5_fieldmd` at address `0x10` is
included, one named `Swift5_fieldmd` or `.text` is not, one at address 0 is
not, and the section of the Mach-O-like `objOneRegion` is. -/
theorem needToRelocate_policy_witness :
    needToRelocate (elfSection "swift5_fieldmd" 0) = some false ∧
      needToRelocate (elfSection "swift5_fieldmd" 0x10) = some true ∧
      needToRelocate (elfSection "Swift5_fieldmd" 0x10) = some false ∧
      needToRelocate (elfSection ".text" 0x10) = some false ∧
      needToRelocate secInPlace = some true :=
  ⟨(needToRelocate_policy (elfSection "swift5_fieldmd" 0)).1 (by decide),
    ((needToRelocate_policy (elfSection "swift5_fieldmd" 0x10)).2.1 (by decide) rfl
      "swift5_fieldmd" rfl).trans (by decide),
    ((needToRelocate_policy (elfSection "Swift5_fieldmd" 0x10)).2.1 (by decide) rfl
      "Swift5_fieldmd" rfl).trans (by decide),
    ((needToRelocate_policy (elfSection ".text" 0x10)).2.1 (by decide) rfl ".text" rfl).trans
      (by decide),
    (needToRelocate_policy secInPlace).2.2.2 (by decide) (by decide)⟩


/-! ## The regions recorded by the constructor -/

theorem Image.addSection_regions {O : ObjectFile} {S : SectionRef} {V V1 : Nat}
    {Rs Rs1 : List RelocatedRegion} (h : Image.addSection O S V Rs = some (V1, Rs1)) :
    Rs1 = Rs ++ (Image.regionOf O S).toList := by
  cases hneed : needToRelocate S with
  | none => simp [Image.addSection, hneed] at h
  | some b =>
    cases b with
    | false =>
      simp only [Image.addSection, hneed, Option.some.injEq, Prod.mk.injEq] at h
      simp [Image.regionOf, hneed, h.2]
    | true =>
      cases hc : S.contents with
      | none => simp [Image.addSection, hneed, hc] at h
      | some c =>
        rw [Image.addSection_included O S c V Rs hneed hc] at h
        simp only [Option.some.injEq, Prod.mk.injEq] at h
        rw [← h.2]
        by_cases hp : sub64 c.data O.data = getSectionAddress S
        · simp [Image.regionOf, hneed, hc, hp]
        · simp [Image.regionOf, hneed, hc, hp]

theorem Image.addSections_regions (O : ObjectFile) (l : List SectionRef) :
    ∀ (V V1 : Nat) (Rs Rs1 : List RelocatedRegion),
      Image.addSections O l V Rs = some (V1, Rs1) →
      Rs1 = Rs ++ l.filterMap (Image.regionOf O) := by
  induction l with
  | nil =>
    intro V V1 Rs Rs1 h
    simp only [Image.addSections, Option.some.injEq, Prod.mk.injEq] at h
    simp [h.2]
  | cons T rest ih =>
    intro V V1 Rs Rs1 h
    cases hstep : Image.addSection O T V Rs with
    | none => simp [Image.addSections, hstep] at h
    | some p =>
      obtain ⟨V2, Rs2⟩ := p
      simp only [Image.addSections, hstep] at h
      rw [ih V2 V1 Rs2 Rs1 h, Image.addSection_regions hstep]
      cases hT : Image.regionOf O T with
      | none => simp [List.filterMap_cons, hT]
      | some r => simp [List.filterMap_cons, hT]

theorem Image.new_regions {O : ObjectFile} {I : Image} (h : Image.new O = some I) :
    I.RelocatedRegions = O.sections.filterMap (Image.regionOf O) := by
  have := Image.addSections_regions O O.sections _ _ _ _ (Image.new_eq_some h).2
  simpa using this

theorem Image.regionOf_eq_some {O : ObjectFile} {S : SectionRef} {r : RelocatedRegion}
    (h : Image.regionOf O S = some r) :
    needToRelocate S = some true ∧ ∃ c, S.contents = some c ∧
      sub64 c.data O.data ≠ getSectionAddress S ∧
      r = { Start := getSectionAddress S, Size := c.size, Base := c.data } := by
  unfold Image.regionOf at h
  cases hneed : needToRelocate S with
  | none => simp [hneed] at h
  | some b =>
    cases b with
    | false => simp [hneed] at h
    | true =>
      cases hc : S.contents with
      | none => simp [hneed, hc] at h
      | some c =>
        simp only [hneed, hc] at h
        by_cases hp : sub64 c.data O.data = getSectionAddress S
        · simp [hp] at h
        · simp only [if_neg hp, Option.some.injEq] at h
          exact ⟨rfl, c, rfl, hp, h.symm⟩

theorem Image.regionOf_of_excluded {O : ObjectFile} {S : SectionRef}
    (h : needToRelocate S = some false) : Image.regionOf O S = none := by
  unfold Image.regionOf
  simp [h]

theorem Image.region_start_ne_zero {O : ObjectFile} {I : Image} (hI : Image.new O = some I)
    {r : RelocatedRegion} (hr : r ∈ I.RelocatedRegions) : r.Start ≠ 0 := by
  rw [Image.new_regions hI, List.mem_filterMap] at hr
  obtain ⟨S, _, hS⟩ := hr
  obtain ⟨hneed, c, _, _, hreq⟩ := Image.regionOf_eq_some hS
  rw [hreq]
  exact needToRelocate_address_ne_zero hneed

/-- C11, counterexample: in the image built from the relocatable ELF
`objELFRel`, with `.text` and `swift5_fieldmd` both at virtual address 0,
`needToRelocate` excludes `swift5_fieldmd` as well, no region is recorded, and
the read of 4 bytes at `image_start + 0` returns the start `0x1000` of the
file buffer, not the contents `0x1080` of `swift5_fieldmd`. -/
theorem elf_va_zero_counterexample :
    Image.new objELFRel = some imgELFRel ∧ secText ∈ objELFRel.sections ∧
      secFieldmd ∈ objELFRel.sections ∧
      getSectionAddress secText = 0 ∧ getSectionAddress secFieldmd = 0 ∧
      secFieldmd.contents = some { data := 0x1080, size := 0x10 } ∧ 4 ≤ secFieldmd.size ∧
      needToRelocate secFieldmd = some false ∧ imgELFRel.RelocatedRegions = [] ∧
      imgELFRel.readBytes (imgELFRel.getStartAddress + 0) 4 = 0x1000 ∧
      imgELFRel.readBytes (imgELFRel.getStartAddress + 0) 4 ≠ 0x1080 := by
  decide

/-- C11, amended: in the image built from a relocatable ELF, every section at
virtual address 0, `.text` and `swift5_fieldmd` alike, is excluded
(`needToRelocate` is false for it, the loop body of the constructor leaves
`VASize` and `RelocatedRegions` unchanged, and it contributes no region), and,
the window not wrapping, every read of `n ≤ VASize` bytes at `image_start + 0`
returns the pointer to the start of the file buffer. -/
theorem elf_va_zero_excluded (O : ObjectFile) (I : Image) (S : SectionRef) (n : Nat)
    (hI : Image.new O = some I)
    (hobj : S.object = ObjectFormat.elf) (haddr : S.address = 0)
    (hwin : I.WindowFits) (hn : n ≤ I.VASize) :
    needToRelocate S = some false ∧
      (∀ V Rs, Image.addSection O S V Rs = some (V, Rs)) ∧
      Image.regionOf O S = none ∧
      I.readBytes (I.getStartAddress + 0) n = O.data := by
  have hS0 : getSectionAddress S = 0 := by
    unfold getSectionAddress
    rw [hobj]
    exact haddr
  have hSn : needToRelocate S = some false := by
    unfold needToRelocate
    rw [if_pos hS0]
  refine ⟨hSn, ?_, Image.regionOf_of_excluded hSn, ?_⟩
  · intro V Rs
    unfold Image.addSection
    rw [hSn]
  obtain ⟨hO, _⟩ := Image.new_eq_some hI
  have hw := hwin
  unfold Image.WindowFits at hw
  unfold Image.getStartAddress
  rw [Nat.add_zero]
  have hv : I.isAddressValid I.O.data n = true :=
    (Image.isAddressValid_iff I I.O.data n hwin (by omega)).2 ⟨le_refl _, by omega⟩
  have hoff : sub64 I.O.data I.O.data = 0 := by
    rw [sub64_of_le (le_refl _) (by omega), Nat.sub_self]
  have hfree : ∀ q ∈ I.RelocatedRegions, ¬ q.contains 0 := by
    intro q hq hc
    have := Image.region_start_ne_zero hI hq
    unfold RelocatedRegion.contains at hc
    omega
  rw [Image.readBytes_of_valid I _ n hv, hoff, find_hits_none_of_not_contains _ _ hfree]
  simp only
  rw [add64_of_lt (by omega), Nat.add_zero, hO]

/-- C11, witness: the sections `.text` and `swift5_fieldmd` of `objELFRel` and
the read of 4 bytes at `image_start + 0` in the image built from it. -/
theorem elf_va_zero_excluded_witness :
    Image.new objELFRel = some imgELFRel ∧
      needToRelocate secText = some false ∧
      (needToRelocate secFieldmd = some false ∧
        (∀ V Rs, Image.addSection objELFRel secFieldmd V Rs = some (V, Rs)) ∧
        Image.regionOf objELFRel secFieldmd = none ∧
        imgELFRel.readBytes (imgELFRel.getStartAddress + 0) 4 = objELFRel.data) :=
  ⟨by decide,
    (elf_va_zero_excluded objELFRel imgELFRel secText 4 (by decide) (by decide) (by decide)
      (by decide) (by decide)).1,
    elf_va_zero_excluded objELFRel imgELFRel secFieldmd 4 (by decide) (by decide) (by decide)
      (by decide) (by decide)⟩

/-! ## The size of the window -/

theorem Image.addSection_VASize_attained {O : ObjectFile} {S : SectionRef} {V V1 : Nat}
    {Rs Rs1 : List RelocatedRegion} (h : Image.addSection O S V Rs = some (V1, Rs1)) :
    V1 = V ∨ (needToRelocate S = some true ∧ V1 = add64 (getSectionAddress S) S.size) := by
  cases hneed : needToRelocate S with
  | none => simp [Image.addSection, hneed] at h
  | some b =>
    cases b with
    | false =>
      simp only [Image.addSection, hneed, Option.some.injEq, Prod.mk.injEq] at h
      exact Or.inl h.1.symm
    | true =>
      cases hc : S.contents with
      | none => simp [Image.addSection, hneed, hc] at h
      | some c =>
        rw [Image.addSection_included O S c V Rs hneed hc] at h
        simp only [Option.some.injEq, Prod.mk.injEq] at h
        rcases le_total V (add64 (getSectionAddress S) S.size) with hle | hle
        · right
          exact ⟨rfl, by rw [← h.1, max_eq_right hle]⟩
        · left
          rw [← h.1, max_eq_left hle]

theorem Image.addSections_VASize_attained (O : ObjectFile) (l : List SectionRef) :
    ∀ (V V1 : Nat) (Rs Rs1 : List RelocatedRegion),
      Image.addSections O l V Rs = some (V1, Rs1) →
      V1 = V ∨ ∃ S ∈ l, needToRelocate S = some true ∧
        V1 = add64 (getSectionAddress S) S.size := by
  induction l with
  | nil =>
    intro V V1 Rs Rs1 h
    simp only [Image.addSections, Option.some.injEq, Prod.mk.injEq] at h
    exact Or.inl h.1.symm
  | cons T rest ih =>
    intro V V1 Rs Rs1 h
    cases hstep : Image.addSection O T V Rs with
    | none => simp [Image.addSections, hstep] at h
    | some p =>
      obtain ⟨V2, Rs2⟩ := p
      simp only [Image.addSections, hstep] at h
      rcases ih V2 V1 Rs2 Rs1 h with h1 | ⟨S, hS, hneed, hV⟩
      · rcases Image.addSection_VASize_attained hstep with h2 | ⟨hneed, h2⟩
        · left
          rw [h1, h2]
        · right
          exact ⟨T, List.mem_cons_self _ _, hneed, by rw [h1, h2]⟩
      · right
        exact ⟨S, List.mem_cons_of_mem _ hS, hneed, hV⟩

/-- The `VASize` of the image built from an object file, in terms of the 64-bit
sums that the constructor computes: it is at least the file size, at least
the sum `add64 (adjusted virtual address) (section size)` of each section with
`needToRelocate` true, and equal to the file size or to one of these sums. -/
theorem Image.VASize_max_of_sums (O : ObjectFile) (I : Image) (hI : Image.new O = some I) :
    O.dataSize ≤ I.VASize ∧
      (∀ S ∈ O.sections, needToRelocate S = some true →
        add64 (getSectionAddress S) S.size ≤ I.VASize) ∧
      (I.VASize = O.dataSize ∨
        ∃ S ∈ O.sections, needToRelocate S = some true ∧
          I.VASize = add64 (getSectionAddress S) S.size) := by
  obtain ⟨_, hadd⟩ := Image.new_eq_some hI
  obtain ⟨hle, hall⟩ := Image.addSections_VASize_le O O.sections _ _ _ _ hadd
  exact ⟨hle, hall, Image.addSections_VASize_attained O O.sections _ _ _ _ hadd⟩

/-- C17, the code at the failing input: the ELF object `objHighSection` has a
file size of `0x100` and one section, `.data`, with `needToRelocate` true, the
adjusted virtual address `2 ^ 64 - 8` and the size 16, so that the maximum of
the file size and of `virtual address + section size` is `2 ^ 64 + 8`; the
constructor computes the sum in 64 bits, where it wraps to 8, and builds an
image with `VASize = 0x100`, smaller than the end of that section. -/
theorem vasize_sum_wraps :
    Image.new objHighSection = some imgHighSection ∧
      (∀ S ∈ objHighSection.sections, needToRelocate S = some true ∧
        getSectionAddress S = 2 ^ 64 - 8 ∧ S.size = 16 ∧
        getSectionAddress S + S.size = 2 ^ 64 + 8 ∧
        add64 (getSectionAddress S) S.size = 8) ∧
      max objHighSection.dataSize (2 ^ 64 + 8) = 2 ^ 64 + 8 ∧
      imgHighSection.VASize = 0x100 ∧
      imgHighSection.VASize ≠ max objHighSection.dataSize (2 ^ 64 + 8) ∧
      (∀ S ∈ objHighSection.sections,
        imgHighSection.VASize < getSectionAddress S + S.size) := by
  decide

/-! ## Windows of distinct images -/

theorem Image.isAddressValid_window {I : Image} {Addr Size : Nat}
    (hv : I.isAddressValid Addr Size = true) (hno : Addr + Size < U64) :
    I.O.data ≤ Addr ∧ Addr + Size ≤ I.O.data + I.VASize := by
  unfold Image.isAddressValid Image.getStartAddress at hv
  simp only [Bool.and_eq_true, decide_eq_true_eq] at hv
  rw [add64_of_lt hno] at hv
  exact ⟨hv.1, le_trans hv.2 (add64_le _ _)⟩

theorem Image.VASize_eq_dataSize {O : ObjectFile} {I : Image} (hI : Image.new O = some I)
    (hin : ∀ S ∈ O.sections, needToRelocate S = some true →
      add64 (getSectionAddress S) S.size ≤ O.dataSize) : I.VASize = O.dataSize := by
  obtain ⟨_, hadd⟩ := Image.new_eq_some hI
  have hle := (Image.addSections_VASize_le O O.sections _ _ _ _ hadd).1
  rcases Image.addSections_VASize_attained O O.sections _ _ _ _ hadd with h | ⟨S, hS, hneed, h⟩
  · exact h
  · have := hin S hS hneed
    omega

/-- C12, counterexample: the file buffers of `objWide`, `[0x1000, 0x1100)`, and
of `objNext`, `[0x1200, 0x1300)`, are disjoint, but the window of the image of
`objWide` is `[0x1000, 0x1290)`: the address `0x1200` lies in both windows and
the read of 8 bytes at `0x120c` is accepted by both images. -/
theorem windows_disjoint_counterexample :
    Image.new objWide = some imgWide ∧ Image.new objNext = some imgNext ∧
      objWide.data + objWide.dataSize ≤ objNext.data ∧
      (imgWide.getStartAddress ≤ 0x1200 ∧ 0x1200 < imgWide.getStartAddress + imgWide.VASize) ∧
      (imgNext.getStartAddress ≤ 0x1200 ∧ 0x1200 < imgNext.getStartAddress + imgNext.VASize) ∧
      0 < 8 ∧ imgWide.isAddressValid 0x120c 8 = true ∧
      imgNext.isAddressValid 0x120c 8 = true := by
  decide

/-- C12, amended: for two images built from object files whose file buffers
occupy disjoint host address ranges and in which no section with
`needToRelocate` true ends beyond the file size, `VASize` is the file size, no
address lies in both windows, and no read of size `> 0` whose end does not
overflow 64 bits is accepted by `isAddressValid` of both images. -/
theorem windows_disjoint (O1 O2 : ObjectFile) (I1 I2 : Image)
    (h1 : Image.new O1 = some I1) (h2 : Image.new O2 = some I2)
    (hdisj : O1.data + O1.dataSize ≤ O2.data ∨ O2.data + O2.dataSize ≤ O1.data)
    (hin1 : ∀ S ∈ O1.sections, needToRelocate S = some true →
      add64 (getSectionAddress S) S.size ≤ O1.dataSize)
    (hin2 : ∀ S ∈ O2.sections, needToRelocate S = some true →
      add64 (getSectionAddress S) S.size ≤ O2.dataSize) :
    I1.VASize = O1.dataSize ∧ I2.VASize = O2.dataSize ∧
      (∀ a, ¬ ((I1.getStartAddress ≤ a ∧ a < I1.getStartAddress + I1.VASize) ∧
        (I2.getStartAddress ≤ a ∧ a < I2.getStartAddress + I2.VASize))) ∧
      (∀ Addr Size, 0 < Size → Addr + Size < U64 →
        ¬ (I1.isAddressValid Addr Size = true ∧ I2.isAddressValid Addr Size = true)) := by
  have hV1 := Image.VASize_eq_dataSize h1 hin1
  have hV2 := Image.VASize_eq_dataSize h2 hin2
  have hO1 := (Image.new_eq_some h1).1
  have hO2 := (Image.new_eq_some h2).1
  refine ⟨hV1, hV2, ?_, ?_⟩
  · intro a h
    unfold Image.getStartAddress at h
    rw [hV1, hV2, hO1, hO2] at h
    omega
  · intro Addr Size hpos hno h
    have w1 := Image.isAddressValid_window h.1 hno
    have w2 := Image.isAddressValid_window h.2 hno
    rw [hV1, hO1] at w1
    rw [hV2, hO2] at w2
    omega

/-- C12, witness: the images of `objInPlace`, mapped at `[0x1000, 0x1100)`, and
of `objNext`, mapped at `[0x1200, 0x1300)`. -/
theorem windows_disjoint_witness :
    Image.new objInPlace = some imgInPlace ∧ Image.new objNext = some imgNext ∧
      (imgInPlace.VASize = objInPlace.dataSize ∧ imgNext.VASize = objNext.dataSize ∧
        (∀ a, ¬ ((imgInPlace.getStartAddress ≤ a ∧
            a < imgInPlace.getStartAddress + imgInPlace.VASize) ∧
          (imgNext.getStartAddress ≤ a ∧ a < imgNext.getStartAddress + imgNext.VASize))) ∧
        (∀ Addr Size, 0 < Size → Addr + Size < U64 →
          ¬ (imgInPlace.isAddressValid Addr Size = true ∧
            imgNext.isAddressValid Addr Size = true))) :=
  ⟨by decide, by decide,
    windows_disjoint objInPlace objNext imgInPlace imgNext (by decide) (by decide)
      (by decide) (by decide) (by decide)⟩

/-! ## The type-lowering action -/

theorem isPrefixOf_slashes (Line : List Char) :
    List.isPrefixOf ['/', '/'] Line = true ↔ ∃ rest, Line = '/' :: '/' :: rest := by
  rw [List.isPrefixOf_iff_prefix]
  constructor
  · rintro ⟨t, ht⟩
    exact ⟨t, ht.symm⟩
  · rintro ⟨t, ht⟩
    exact ⟨t, ht.symm⟩

theorem lineContribution_other {Node TypeRef TypeInfo : Type} (E : Engine Node TypeRef TypeInfo)
    (Line : List Char) (h1 : Line ≠ []) (h2 : ∀ rest, Line ≠ '/' :: '/' :: rest) :
    lineContribution E Line =
      match E.decodeMangledType (E.demangleType Line) with
      | none => "Invalid typeref: ".toList ++ Line ++ "\n".toList
      | some T =>
        match E.getTypeInfo T with
        | none => E.dumpTypeRef T ++ "Invalid lowering\n".toList
        | some TI => E.dumpTypeRef T ++ E.dumpTypeInfo TI := by
  unfold lineContribution
  split
  · exact absurd rfl h1
  · exact absurd rfl (h2 _)
  · rfl

theorem typeLoweringLoop_eq {Node TypeRef TypeInfo : Type} (E : Engine Node TypeRef TypeInfo)
    (lines : List (List Char)) :
    ∀ OS, typeLoweringLoop E lines OS = OS ++ (lines.map (lineContribution E)).flatten := by
  induction lines with
  | nil =>
    intro OS
    simp [typeLoweringLoop]
  | cons Line rest ih =>
    intro OS
    rw [List.map_cons, List.flatten_cons, ← List.append_assoc]
    by_cases h1 : Line = []
    · subst h1
      simp only [typeLoweringLoop, List.isEmpty_nil, if_true]
      rw [ih]
      simp [lineContribution]
    · have hne : Line.isEmpty = false := by
        cases Line with
        | nil => exact absurd rfl h1
        | cons c t => rfl
      by_cases h2 : ∃ t, Line = '/' :: '/' :: t
      · obtain ⟨t, rfl⟩ := h2
        have hp : List.isPrefixOf ['/', '/'] ('/' :: '/' :: t) = true :=
          (isPrefixOf_slashes _).2 ⟨t, rfl⟩
        simp only [typeLoweringLoop, hne, hp, if_true, Bool.false_eq_true, if_false]
        rw [ih]
        simp [lineContribution]
      · have hp : List.isPrefixOf ['/', '/'] Line = false := by
          cases hh : List.isPrefixOf ['/', '/'] Line with
          | false => rfl
          | true => exact absurd ((isPrefixOf_slashes _).1 hh) h2
        have h2' : ∀ t, Line ≠ '/' :: '/' :: t := fun t ht => h2 ⟨t, ht⟩
        rw [lineContribution_other E Line h1 h2']
        simp only [typeLoweringLoop, hne, hp, Bool.false_eq_true, if_false]
        cases hd : E.decodeMangledType (E.demangleType Line) with
        | none =>
          simp only
          rw [ih]
          simp [List.append_assoc]
        | some T =>
          simp only
          cases hl : E.getTypeInfo T with
          | none =>
            simp only
            rw [ih]
            simp [List.append_assoc]
          | some TI =>
            simp only
            rw [ih]
            simp [List.append_assoc]

/-- C13: once the reader is built, the type-lowering action returns exit
status 0 and its output is the previous contents of the stream followed by the
contributions of all the lines in order, where an empty line or a line
beginning with `//` contributes nothing, any other line whose decoding fails
contributes `Invalid typeref: <line>` and a newline, a line that decodes but
does not lower contributes the dump of the structural type followed by
`Invalid lowering` and a newline, and any other line contributes the dump of
the structural type followed by the dump of the layout. -/
theorem type_lowering_output {Node TypeRef TypeInfo : Type} (E : Engine Node TypeRef TypeInfo)
    (ObjectFiles : List ObjectFile) (R : ObjectMemoryReader) (lines : List (List Char))
    (OS : List Char) (hR : ObjectMemoryReader.new ObjectFiles = some R) :
    doDumpReflectionSections E ObjectFiles ActionType.DumpTypeLowering lines OS =
        some (OS ++ (lines.map (lineContribution E)).flatten, 0) ∧
      lineContribution E [] = [] ∧
      (∀ rest, lineContribution E ('/' :: '/' :: rest) = []) ∧
      (∀ Line, Line ≠ [] → (∀ rest, Line ≠ '/' :: '/' :: rest) →
        (E.decodeMangledType (E.demangleType Line) = none →
          lineContribution E Line = "Invalid typeref: ".toList ++ Line ++ "\n".toList) ∧
        (∀ T, E.decodeMangledType (E.demangleType Line) = some T → E.getTypeInfo T = none →
          lineContribution E Line = E.dumpTypeRef T ++ "Invalid lowering\n".toList) ∧
        (∀ T TI, E.decodeMangledType (E.demangleType Line) = some T →
          E.getTypeInfo T = some TI →
          lineContribution E Line = E.dumpTypeRef T ++ E.dumpTypeInfo TI)) := by
  refine ⟨?_, ?_, ?_, ?_⟩
  · unfold doDumpReflectionSections
    simp only [hR, typeLoweringLoop_eq]
  · simp [lineContribution]
  · intro rest
    simp [lineContribution]
  · intro Line h1 h2
    rw [lineContribution_other E Line h1 h2]
    refine ⟨?_, ?_, ?_⟩
    · intro hd
      simp only [hd]
    · intro T hd hl
      simp only [hd, hl]
    · intro T TI hd hl
      simp only [hd, hl]

/-- C13, witness: with the engine `engineSample`, a reader over `objPlain` and
the five lines of `stdinSample`, the output is the two dumps of `$sSiD`, the
line `Invalid typeref: not a mangled name`, and the dump of `$sNope` followed
by `Invalid lowering`; the exit status is 0. -/
theorem type_lowering_output_witness :
    doDumpReflectionSections engineSample [objPlain] ActionType.DumpTypeLowering stdinSample []
        = some ([] ++ (stdinSample.map (lineContribution engineSample)).flatten, 0) ∧
      (stdinSample.map (lineContribution engineSample)).flatten =
        ("(struct Swift.Int)\n(struct size=8)\nInvalid typeref: not a mangled name\n" ++
          "(opaque)\nInvalid lowering\n").toList :=
  ⟨(type_lowering_output engineSample [objPlain] { Images := [imgPlain] } stdinSample []
      (by decide)).1,
    by decide⟩

/-! ## Symbol lookup and data layout -/

/-- C14: `getSymbolAddress` returns the null address for every reader and every
symbol name. -/
theorem getSymbolAddress_null (R : ObjectMemoryReader) (name : String) :
    R.getSymbolAddress name = nullptr := by
  unfold ObjectMemoryReader.getSymbolAddress
  rfl

/-- C15: for both kinds `DLQ_GetPointerSize` and `DLQ_GetSizeSize`,
`queryDataLayout` returns true and writes the same byte, the width of a host
pointer in bytes (the width whose address space has `U64` addresses), whatever
the reader and the input buffer are. -/
theorem queryDataLayout_pointer_width (R R1 : ObjectMemoryReader) (inBuffer inBuffer1 : Nat) :
    R.queryDataLayout DataLayoutQueryType.DLQ_GetPointerSize inBuffer
        = (true, some sizeofPointer) ∧
      R.queryDataLayout DataLayoutQueryType.DLQ_GetSizeSize inBuffer
        = (true, some sizeofPointer) ∧
      R.queryDataLayout DataLayoutQueryType.DLQ_GetPointerSize inBuffer =
        R1.queryDataLayout DataLayoutQueryType.DLQ_GetSizeSize inBuffer1 ∧
      2 ^ (8 * sizeofPointer) = U64 := by
  refine ⟨rfl, rfl, rfl, ?_⟩
  decide

/-! ## Region construction -/

theorem Image.addSections_contents (O : ObjectFile) (l : List SectionRef) :
    ∀ (V V1 : Nat) (Rs Rs1 : List RelocatedRegion),
      Image.addSections O l V Rs = some (V1, Rs1) →
      ∀ S ∈ l, needToRelocate S = some true → ∃ c, S.contents = some c := by
  induction l with
  | nil =>
    intro V V1 Rs Rs1 _ S hS
    cases hS
  | cons T rest ih =>
    intro V V1 Rs Rs1 h S hS hneed
    cases hstep : Image.addSection O T V Rs with
    | none => simp [Image.addSections, hstep] at h
    | some p =>
      obtain ⟨V2, Rs2⟩ := p
      simp only [Image.addSections, hstep] at h
      rcases List.mem_cons.1 hS with hST | hSr
      · subst hST
        cases hc : S.contents with
        | none => simp [Image.addSection, hneed, hc] at hstep
        | some c => exact ⟨c, rfl⟩
      · exact ih V2 V1 Rs2 Rs1 h S hSr hneed

/-- C16: the `RelocatedRegions` of the image built from an object file are, in
the enumeration order of the sections, the records of the sections that
contribute one; a section contributes the record
`{adjusted virtual address, contents size, contents pointer}` exactly when
`needToRelocate` holds for it and its physical offset (contents pointer minus
file-buffer pointer) differs from its adjusted virtual address, and the
contents of every section with `needToRelocate` true were read. -/
theorem region_construction (O : ObjectFile) (I : Image) (hI : Image.new O = some I) :
    I.RelocatedRegions = O.sections.filterMap (Image.regionOf O) ∧
      (∀ S ∈ O.sections, needToRelocate S = some true → ∃ c, S.contents = some c) ∧
      (∀ S r, Image.regionOf O S = some r ↔
        (needToRelocate S = some true ∧ ∃ c, S.contents = some c ∧
          sub64 c.data O.data ≠ getSectionAddress S ∧
          r = { Start := getSectionAddress S, Size := c.size, Base := c.data })) := by
  refine ⟨Image.new_regions hI, ?_, ?_⟩
  · exact Image.addSections_contents O O.sections _ _ _ _ (Image.new_eq_some hI).2
  · intro S r
    constructor
    · exact Image.regionOf_eq_some
    · rintro ⟨hneed, c, hc, hp, hr⟩
      unfold Image.regionOf
      simp only [hneed, hc, if_neg hp, hr]

/-- C16, witness: the image built from `objShadowed`, whose first section sits at
the file offset equal to its virtual address and whose second one does not,
has the single record of the second section. -/
theorem region_construction_witness :
    Image.new objShadowed = some imgShadowed ∧
      imgShadowed.RelocatedRegions =
        objShadowed.sections.filterMap (Image.regionOf objShadowed) ∧
      objShadowed.sections.filterMap (Image.regionOf objShadowed) =
        [{ Start := 0x10, Size := 0x10, Base := 0x1040 }] :=
  ⟨by decide, (region_construction objShadowed imgShadowed (by decide)).1, by decide⟩

/-! ## Invariants of the regions -/

/-- C19, counterexample: the image built from `objOverlap` has the two regions
`[8, 40)` and `[8, 16)`, which both contain the offset 8. -/
theorem regions_disjoint_counterexample :
    Image.new objOverlap = some imgOverlap ∧
      imgOverlap.RelocatedRegions =
        [{ Start := 8, Size := 32, Base := 0x1040 }, { Start := 8, Size := 8, Base := 0x1080 }] ∧
      ({ Start := 8, Size := 32, Base := 0x1040 } : RelocatedRegion) ≠
        { Start := 8, Size := 8, Base := 0x1080 } ∧
      ({ Start := 8, Size := 32, Base := 0x1040 } : RelocatedRegion).contains 8 ∧
      ({ Start := 8, Size := 8, Base := 0x1080 } : RelocatedRegion).contains 8 ∧
      ¬ imgOverlap.RegionsDisjoint := by
  refine ⟨by decide, by decide, by decide, by decide, by decide, ?_⟩
  unfold Image.RegionsDisjoint
  intro h
  have h2 : ∀ x, ¬ (({ Start := 8, Size := 32, Base := 0x1040 } : RelocatedRegion).contains x ∧
      ({ Start := 8, Size := 8, Base := 0x1080 } : RelocatedRegion).contains x) := by
    simpa [imgOverlap] using h
  exact h2 8 (by decide)

/-- C19, amended: in the image built from an object file in which the extents
`[virtual address, virtual address + contents size)` of the sections with
`needToRelocate` true are pairwise disjoint, no two regions at distinct
positions of `RelocatedRegions` share an offset. -/
theorem regions_disjoint (O : ObjectFile) (I : Image) (hI : Image.new O = some I)
    (hsec : O.sections.Pairwise (fun S T =>
      needToRelocate S = some true → needToRelocate T = some true →
      ∀ cS cT, S.contents = some cS → T.contents = some cT →
      ∀ x, ¬ ((getSectionAddress S ≤ x ∧ x < getSectionAddress S + cS.size) ∧
        (getSectionAddress T ≤ x ∧ x < getSectionAddress T + cT.size)))) :
    I.RegionsDisjoint := by
  unfold Image.RegionsDisjoint
  rw [Image.new_regions hI]
  refine List.Pairwise.filterMap (Image.regionOf O) ?_ hsec
  intro S T hST r hr q hq x hx
  obtain ⟨hS, cS, hcS, _, hreq⟩ := Image.regionOf_eq_some hr
  obtain ⟨hT, cT, hcT, _, hqeq⟩ := Image.regionOf_eq_some hq
  rw [hreq, hqeq] at hx
  exact hST hS hT cS cT hcS hcT x hx

/-- C19, witness: the two regions `[0x200, 0x210)` and `[0x280, 0x290)` of the
image built from `objWide`. -/
theorem regions_disjoint_witness :
    Image.new objWide = some imgWide ∧ imgWide.RegionsDisjoint :=
  ⟨by decide,
    regions_disjoint objWide imgWide (by decide) (by
      unfold objWide
      simp only [List.pairwise_cons, List.mem_singleton, List.not_mem_nil, forall_eq,
        List.Pairwise.nil, and_true, false_implies, implies_true]
      intro _ _ cS cT hS hT x
      simp only [Option.some.injEq] at hS hT
      subst hS
      subst hT
      simp only [getSectionAddress]
      omega)⟩

/-! ## Backing bytes of successful reads -/

/-- C20, the code at the failing input: in the image built from the PE file
`objPE`, 4096 bytes at `[0x10000, 0x11000)` with the contents of `.rdata` at
`[0x10400, 0x10410)` and the window `[0x10000, 0x14010)`, the read of 4 bytes at
`image_start + 0x2000` returns the non-null pointer `0x12000`, beyond the
file buffer and outside the contents of the region. -/
theorem readBytes_beyond_file :
    Image.new objPE = some imgPE ∧
      imgPE.readBytes (imgPE.getStartAddress + 0x2000) 4 = 0x12000 ∧
      imgPE.readBytes (imgPE.getStartAddress + 0x2000) 4 ≠ nullptr ∧
      ¬ (imgPE.O.data ≤ 0x12000 ∧ 0x12000 + 4 ≤ imgPE.O.data + imgPE.O.dataSize) ∧
      (∀ r ∈ imgPE.RelocatedRegions, ¬ (r.Base ≤ 0x12000 ∧ 0x12000 + 4 ≤ r.Base + r.Size)) ∧
      ¬ imgPE.backs (imgPE.readBytes (imgPE.getStartAddress + 0x2000) 4) 4 := by
  refine ⟨by decide, by decide, by decide, by decide, by decide, ?_⟩
  have hp : imgPE.readBytes (imgPE.getStartAddress + 0x2000) 4 = 0x12000 := by decide
  rw [hp]
  unfold Image.backs
  simp [imgPE, objPE]

end ReflectionDump
